import Mathlib

/-!
Shallow embedding of the Micetro range-search code:
  * `library/findrange.py`   — the Ansible module variant (`run_module`,
    `recurse_ranges`, `doapi_with_errcheck`); and
  * `lookup_plugins/freerange.py` — the lookup-plugin variant
    (`LookupModule.run`, `recurse_ranges`).

Modelling choices (all translated from the source):
  * A fetched range object is an `RTree` node: `name` (CIDR string), `ref`
    (resource id, used both as the `childRanges` entry ref that is `GET`-ed
    and as the node's own `ref` used for the `PUT`; the code reads the same
    value from both places), `title` (`customProperties.Title`; `none` models
    a missing `customProperties` dict or a missing `Title` key), and
    `children` (the `childRanges` list).  Since the remote service is
    deterministic per request, the response to the `GET` of a child ref is
    stored with the child itself: `getW` is the `warnings` field of that
    response, and `putW` is the `warnings` field the service would return
    for a `PUT` to this node's ref.  An empty string means no warnings
    (Python truthiness of the string).
  * The response to the top-level `GET Ranges?filter=<network>` call is a
    `NetQuery` (its `warnings` field plus its `result.ranges` list); the
    environment of a whole run is the list of `NetQuery`s in network order.
  * Python string helpers (`str.split("/")`, `int(...)`, `str.lower()`,
    substring `in`) are re-implemented on `List Char` so that everything
    reduces in the kernel; they agree with Python on the ASCII inputs the
    claims are about (Python's `int` also allows surrounding whitespace and
    underscores, and `str.lower` is Unicode aware; those corners are not
    exercised here).
  * Side effects are recorded as an event list `List Ev`: a `visit` for the
    `print` at the top of `recurse_ranges`, a `get` for each `doapi` GET,
    and a `put` for the title-rewrite PUT.
  * `module.exit_json` / `module.fail_json` terminate the module; they are
    modelled as short-circuiting constructors of `MStep` / `MOut`.  An
    unparseable CIDR makes the Python unpacking `_, prefix_length =
    curr_cidr.split("/")` or `int(...)` raise, modelled as `crash`.
-/

/-- Python `str.lower` on an ASCII character (`A`-`Z` mapped down). -/
def lowerChar (c : Char) : Char :=
  if 65 ≤ c.toNat ∧ c.toNat ≤ 90 then Char.ofNat (c.toNat + 32) else c

/-- Python `str.lower` on a character list. -/
def lowerChars (s : List Char) : List Char :=
  s.map lowerChar

/-- Python `str.split("/")`: split on every slash, keeping empty pieces. -/
def splitSlash : List Char → List (List Char)
  | [] => [[]]
  | c :: cs =>
    if c == '/' then [] :: splitSlash cs
    else
      match splitSlash cs with
      | [] => [[c]]
      | g :: gs => (c :: g) :: gs

/-- Digit-string value accumulator for `pyInt?`. -/
def digitsValAux : List Char → Nat → Option Nat
  | [], acc => some acc
  | c :: cs, acc =>
    if c.isDigit then digitsValAux cs (acc * 10 + (c.toNat - 48)) else none

/-- Value of a non-empty all-digit character list. -/
def digitsVal : List Char → Option Nat
  | [] => none
  | c :: cs => digitsValAux (c :: cs) 0

/-- Python `int(...)` on a string: optional sign, then decimal digits. -/
def pyInt? : List Char → Option Int
  | '-' :: ds => (digitsVal ds).map (fun n => -(n : Int))
  | '+' :: ds => (digitsVal ds).map (fun n => (n : Int))
  | ds => (digitsVal ds).map (fun n => (n : Int))

/-- Python list/string startswith test on character lists. -/
def pyStartsWith : List Char → List Char → Bool
  | [], _ => true
  | _ :: _, [] => false
  | a :: as, b :: bs => a == b && pyStartsWith as bs

/-- Python substring operator `needle in hay` on character lists. -/
def pyIn (needle : List Char) : List Char → Bool
  | [] => pyStartsWith needle []
  | h :: hs => pyStartsWith needle (h :: hs) || pyIn needle hs

/-- The prefix length of a CIDR string: the code runs
`_, prefix_length = curr_cidr.split("/")` followed by
`int(prefix_length)`; `none` models the raised exception when the name is
not exactly `<something>/<int>`. -/
def cidrPlen (cidr : String) : Option Int :=
  match splitSlash cidr.toList with
  | [_, p] => pyInt? p
  | _ => none

/-- A range node together with the responses the service gives for it
(`getW`: warnings of the `GET <ref>` that materializes it as a child;
`putW`: warnings of a `PUT <ref>`). -/
inductive RTree : Type where
  | mk (name ref : String) (title : Option String) (getW putW : String)
      (children : List RTree)

def RTree.name : RTree → String
  | .mk n _ _ _ _ _ => n

def RTree.ref : RTree → String
  | .mk _ r _ _ _ _ => r

def RTree.title : RTree → Option String
  | .mk _ _ t _ _ _ => t

def RTree.getW : RTree → String
  | .mk _ _ _ g _ _ => g

def RTree.putW : RTree → String
  | .mk _ _ _ _ p _ => p

def RTree.children : RTree → List RTree
  | .mk _ _ _ _ _ cs => cs

/-- Response to one `GET Ranges?filter=<network>` query: the network string
it was issued for, its `warnings` field and its `result.ranges` list. -/
structure NetQuery : Type where
  network : String
  warnings : String
  ranges : List RTree

/-- Observable side effects: the `print` of the visited node's CIDR (with
the node's title, to make the visit log self-contained), each `doapi` GET
by url, and each `doapi` PUT with its url and databody fields. -/
inductive Ev : Type where
  | visit (cidr : String) (title : Option String)
  | get (url : String)
  | put (url ref newTitle comment : String)
deriving DecidableEq

/-- Line 145 of `findrange.py` (identical to line 177 of `freerange.py`),
after the prefix has been parsed:
`int(prefix_length) == int(target_prefix_length) and title_text in
range_obj.get("customProperties", {}).get("Title", "").lower()`. -/
def matchCond (target : Int) (tt : String) (p : Int) (title : Option String) : Bool :=
  p == target && pyIn tt.toList (lowerChars (title.getD "").toList)

/-- Outcome of `recurse_ranges` in the module variant: `cont` is a plain
return (keep searching), `exit` models `module.exit_json` (found: CIDR and
`changed`), `fail` models `module.fail_json` on API warnings, `crash` an
uncaught Python exception from CIDR parsing.  Each carries the events the
call emitted. -/
inductive MStep : Type where
  | cont (evs : List Ev)
  | exit (cidr : String) (changed : Bool) (evs : List Ev)
  | fail (msg : String) (evs : List Ev)
  | crash (evs : List Ev)
deriving DecidableEq

def MStep.evs : MStep → List Ev
  | .cont e => e
  | .exit _ _ e => e
  | .fail _ e => e
  | .crash e => e

def MStep.addEvs (pre : List Ev) : MStep → MStep
  | .cont e => .cont (pre ++ e)
  | .exit c ch e => .exit c ch (pre ++ e)
  | .fail m e => .fail m (pre ++ e)
  | .crash e => .crash (pre ++ e)

mutual

/-- `recurse_ranges` of `library/findrange.py` (lines 141-171), for target
prefix length `t`, title substring `tt`, new title `nt` and check mode
`cm`.  On a match: with a non-empty `new_title` and not in check mode the
PUT is issued and its warnings checked (`doapi_with_errcheck`), then
`changed` is set; the module always exits with the CIDR.  Otherwise, with
parsed prefix `< 28` (hardcoded) and a truthy `childRanges` list, each
child is fetched by ref, its GET warnings checked, and recursed into. -/
def recurseM (t : Int) (tt nt : String) (cm : Bool) : RTree → MStep
  | .mk name ref title _ putW cs =>
    let v := Ev.visit name title
    match cidrPlen name with
    | none => .crash [v]
    | some p =>
      if matchCond t tt p title then
        if nt ≠ "" then
          if cm then .exit name true [v]
          else
            let pe := Ev.put ref ref nt "Ansible API"
            if putW ≠ "" then .fail putW [v, pe]
            else .exit name true [v, pe]
        else .exit name false [v]
      else if p < 28 ∧ cs.isEmpty = false then
        MStep.addEvs [v] (recurseMKids t tt nt cm cs)
      else .cont [v]

/-- The `for child in range_obj["childRanges"]` loop of the module variant:
GET each child ref, abort on warnings (`doapi_with_errcheck`), recurse,
and propagate an exit/fail (they are exceptions in the Python). -/
def recurseMKids (t : Int) (tt nt : String) (cm : Bool) : List RTree → MStep
  | [] => .cont []
  | c :: rest =>
    let g := Ev.get c.ref
    if c.getW ≠ "" then .fail c.getW [g]
    else
      match recurseM t tt nt cm c with
      | .cont e => MStep.addEvs (g :: e) (recurseMKids t tt nt cm rest)
      | .exit cd ch e => .exit cd ch (g :: e)
      | .fail m e => .fail m (g :: e)
      | .crash e => .crash (g :: e)

end

/-- The `for net_range in net_ranges` loop of `run_module` (lines 187-188):
top-level ranges come from the bulk `Ranges` query, so no per-range GET. -/
def runRanges (t : Int) (tt nt : String) (cm : Bool) : List RTree → MStep
  | [] => .cont []
  | r :: rest =>
    match recurseM t tt nt cm r with
    | .cont e => MStep.addEvs e (runRanges t tt nt cm rest)
    | .exit cd ch e => .exit cd ch e
    | .fail m e => .fail m e
    | .crash e => .crash e

/-- Final outcome of `run_module`: `found` is the `exit_json` with message
and changed flag, `apiError` the `fail_json` from `doapi_with_errcheck`,
`notFound` the closing `fail_json` (line 191), `crash` a Python
exception. -/
inductive MOut : Type where
  | found (cidr : String) (changed : Bool) (evs : List Ev)
  | apiError (msg : String) (evs : List Ev)
  | notFound (msg : String) (evs : List Ev)
  | crash (evs : List Ev)
deriving DecidableEq

def MOut.evs : MOut → List Ev
  | .found _ _ e => e
  | .apiError _ e => e
  | .notFound _ e => e
  | .crash e => e

def MOut.addEvs (pre : List Ev) : MOut → MOut
  | .found c ch e => .found c ch (pre ++ e)
  | .apiError m e => .apiError m (pre ++ e)
  | .notFound m e => .notFound m (pre ++ e)
  | .crash e => .crash (pre ++ e)

/-- `run_module` of `library/findrange.py` (lines 173-191): for each
network issue `GET Ranges` with the network as filter, abort on warnings,
skip networks with no ranges, search each top-level range, and fail with
the not-found message after the loop. -/
def runModule (t : Int) (tt nt : String) (cm : Bool) : List NetQuery → MOut
  | [] => .notFound s!"No acceptable /{t} range found in the provided network(s)." []
  | q :: rest =>
    let g := Ev.get "Ranges"
    if q.warnings ≠ "" then .apiError q.warnings [g]
    else
      match runRanges t tt nt cm q.ranges with
      | .cont e => MOut.addEvs (g :: e) (runModule t tt nt cm rest)
      | .exit cd ch e => .found cd ch (g :: e)
      | .fail m e => .apiError m (g :: e)
      | .crash e => .crash (g :: e)

/-- Outcome of the lookup variant's `recurse_ranges` / `run`: a returned
list (`[cidr]` on success, `[]` for no result — the plugin raises no
exception for that) or a crash from CIDR parsing. -/
inductive LStep : Type where
  | res (cidrs : List String) (evs : List Ev)
  | crash (evs : List Ev)
deriving DecidableEq

def LStep.evs : LStep → List Ev
  | .res _ e => e
  | .crash e => e

def LStep.addEvs (pre : List Ev) : LStep → LStep
  | .res xs e => .res xs (pre ++ e)
  | .crash e => .crash (pre ++ e)

mutual

/-- `recurse_ranges` of `lookup_plugins/freerange.py` (lines 173-189): same
match and descend tests as the module variant, but it returns `[cidr]` on a
match, never mutates, and calls plain `doapi` with NO check of the
response's `warnings` field. -/
def recurseL (t : Int) (tt : String) : RTree → LStep
  | .mk name _ title _ _ cs =>
    let v := Ev.visit name title
    match cidrPlen name with
    | none => .crash [v]
    | some p =>
      if matchCond t tt p title then .res [name] [v]
      else if p < 28 ∧ cs.isEmpty = false then
        LStep.addEvs [v] (recurseLKids t tt cs)
      else .res [] [v]

/-- The child loop of the lookup variant: GET each child ref (warnings
ignored), recurse, and return the first truthy (non-empty) result. -/
def recurseLKids (t : Int) (tt : String) : List RTree → LStep
  | [] => .res [] []
  | c :: rest =>
    let g := Ev.get c.ref
    match recurseL t tt c with
    | .crash e => .crash (g :: e)
    | .res [] e => LStep.addEvs (g :: e) (recurseLKids t tt rest)
    | .res xs e => .res xs (g :: e)

end

/-- The per-network loop of `LookupModule.run` (lines 192-208): top-level
ranges of one network, returning the first truthy recursion result. -/
def runLRanges (t : Int) (tt : String) : List RTree → LStep
  | [] => .res [] []
  | r :: rest =>
    match recurseL t tt r with
    | .crash e => .crash e
    | .res [] e => LStep.addEvs e (runLRanges t tt rest)
    | .res xs e => .res xs e

/-- The network loop plus final `return []` of `LookupModule.run` (lines
192-212): the `warnings` field of the `Ranges` response is never
inspected. -/
def runL (t : Int) (tt : String) : List NetQuery → LStep
  | [] => .res [] []
  | q :: rest =>
    let g := Ev.get "Ranges"
    match runLRanges t tt q.ranges with
    | .crash e => .crash (g :: e)
    | .res [] e => LStep.addEvs (g :: e) (runL t tt rest)
    | .res xs e => .res xs (g :: e)

/-- `LookupModule.run`'s keyword handling (lines 170-171):
`kwargs.get("prefixlength", 28)` and `kwargs.get("title", "free")`. -/
def lookupRun (plen : Option Int) (ttl : Option String) (env : List NetQuery) : LStep :=
  runL (plen.getD 28) (ttl.getD "free") env

/-!
Spec-side characterizations used by the theorems: which nodes qualify,
which qualifying nodes the traversal can reach, and well-formedness of an
environment (names parseable, responses warning-free).
-/

/-- A node satisfies the match condition of line 145 / line 177. -/
def qualNode (t : Int) (tt : String) (r : RTree) : Bool :=
  match cidrPlen r.name with
  | some p => matchCond t tt p r.title
  | none => false

mutual

/-- Qualifying nodes the traversal can reach, in traversal order: a
matching node is listed (and its children are not entered, mirroring the
`elif`); otherwise children are entered only under the parsed prefix
`< 28` and non-empty `childRanges` descend test. -/
def reachQuals (t : Int) (tt : String) : RTree → List RTree
  | .mk name ref title gw pw cs =>
    match cidrPlen name with
    | none => []
    | some p =>
      if matchCond t tt p title then [RTree.mk name ref title gw pw cs]
      else if p < 28 ∧ cs.isEmpty = false then reachQualsKids t tt cs
      else []

/-- `reachQuals` over a list of sibling ranges, in list order. -/
def reachQualsKids (t : Int) (tt : String) : List RTree → List RTree
  | [] => []
  | c :: rest => reachQuals t tt c ++ reachQualsKids t tt rest

end

/-- `reachQuals` over the whole environment, networks in input order. -/
def reachQualsEnv (t : Int) (tt : String) : List NetQuery → List RTree
  | [] => []
  | q :: rest => reachQualsKids t tt q.ranges ++ reachQualsEnv t tt rest

mutual

/-- Every node name in the tree parses as `<address>/<int>`. -/
def allParseT : RTree → Bool
  | .mk name _ _ _ _ cs => (cidrPlen name).isSome && allParseL cs

def allParseL : List RTree → Bool
  | [] => true
  | c :: rest => allParseT c && allParseL rest

end

mutual

/-- Every GET response in the tree is warning-free. -/
def noGetWT : RTree → Bool
  | .mk _ _ _ gw _ cs => (gw == "") && noGetWL cs

def noGetWL : List RTree → Bool
  | [] => true
  | c :: rest => noGetWT c && noGetWL rest

end

mutual

/-- Every PUT response in the tree is warning-free. -/
def noPutWT : RTree → Bool
  | .mk _ _ _ _ pw cs => (pw == "") && noPutWL cs

def noPutWL : List RTree → Bool
  | [] => true
  | c :: rest => noPutWT c && noPutWL rest

end

mutual

/-- No node at any depth of the tree satisfies the match condition. -/
def noQualT (t : Int) (tt : String) : RTree → Bool
  | .mk name _ title _ _ cs =>
    (match cidrPlen name with
     | some p => !(matchCond t tt p title)
     | none => true) && noQualL t tt cs

def noQualL (t : Int) (tt : String) : List RTree → Bool
  | [] => true
  | c :: rest => noQualT t tt c && noQualL t tt rest

end

def envAllParse : List NetQuery → Bool
  | [] => true
  | q :: rest => allParseL q.ranges && envAllParse rest

def envNoGetW : List NetQuery → Bool
  | [] => true
  | q :: rest => (q.warnings == "") && noGetWL q.ranges && envNoGetW rest

def envNoPutW : List NetQuery → Bool
  | [] => true
  | q :: rest => noPutWL q.ranges && envNoPutW rest

def envNoQual (t : Int) (tt : String) : List NetQuery → Bool
  | [] => true
  | q :: rest => noQualL t tt q.ranges && envNoQual t tt rest

/-- True for every event that is not a mutating PUT. -/
def evNotPut : Ev → Bool
  | .put _ _ _ _ => false
  | _ => true

/-- An event list contains no mutating PUT. -/
def evsNoPut (e : List Ev) : Bool :=
  e.all evNotPut

/-- The mutating PUT calls of an event list, in order. -/
def evsPuts (e : List Ev) : List Ev :=
  e.filter (fun ev => !evNotPut ev)

/-- The PUT event a successful match emits: present exactly when a new
title was requested and check mode is off. -/
def putTail (nt : String) (cm : Bool) (m : RTree) : List Ev :=
  if nt ≠ "" ∧ cm = false then [Ev.put m.ref m.ref nt "Ansible API"] else []

/-- Module outcome with the event trace stripped, for comparing dry and
non-dry runs. -/
inductive MRes : Type where
  | found (cidr : String) (changed : Bool)
  | apiError (msg : String)
  | notFound (msg : String)
  | crash
deriving DecidableEq

def MOut.strip : MOut → MRes
  | .found c ch _ => .found c ch
  | .apiError m _ => .apiError m
  | .notFound m _ => .notFound m
  | .crash _ => .crash

/-- `MStep` with the event trace stripped. -/
inductive MStepS : Type where
  | cont
  | exit (cidr : String) (changed : Bool)
  | fail (msg : String)
  | crash
deriving DecidableEq

def MStep.strip : MStep → MStepS
  | .cont _ => .cont
  | .exit c ch _ => .exit c ch
  | .fail m _ => .fail m
  | .crash _ => .crash

/-- The recursion stops the whole module search (exit_json / fail_json). -/
def MStep.isStop : MStep → Bool
  | .exit _ _ _ => true
  | .fail _ _ => true
  | .cont _ => false
  | .crash _ => false

/-- Map a stopping `MStep` (exit_json / fail_json) to the module outcome
it produces at top level; `cont`/`crash` are mapped to `crash` but the
lemmas only ever apply this to stopping steps. -/
def MStep.stopOut : MStep → MOut
  | .exit cd ch e => .found cd ch e
  | .fail m e => .apiError m e
  | .cont e => .crash e
  | .crash e => .crash e

/-- The not-found message of `run_module` (line 191). -/
def notFoundMsg (t : Int) : String :=
  s!"No acceptable /{t} range found in the provided network(s)."

/-!
Concrete environments used by the counterexamples and witnesses below.
-/

/-- Node used in the C1 counterexample: a `/29` range with a qualifying
`/30` child range. -/
def c1kid : RTree := .mk "10.0.0.0/30" "rk1" (some "free") "" "" []

def c1node : RTree := .mk "10.0.0.0/29" "rn1" none "" "" [c1kid]

def c1wkid : RTree := .mk "10.0.1.16/28" "rw1" (some "free") "" "" []

def c2node : RTree := .mk "10.0.0.0/28" "rc2" (some "free pool") "" "" []

def c3kid : RTree := .mk "10.0.0.16/28" "rk3" (some "free") "WARNING: boom" "" []

def c3root : RTree := .mk "10.0.0.0/24" "rr3" none "" "" [c3kid]

def c4tree : RTree := .mk "10.0.0.0/28" "rc4" (some "free") "" "PUTFAIL" []

def c4wtree : RTree := .mk "10.0.2.0/28" "rw4" (some "free") "" "" []

def c5kid : RTree := .mk "10.0.0.16/28" "rk5" (some "free") "" "" []

def c5root : RTree := .mk "10.0.0.0/28" "rr5" (some "used") "" "" [c5kid]

def c5wkid : RTree := .mk "10.0.3.16/28" "rk5w" (some "free pool") "" "" []

def c5wroot : RTree := .mk "10.0.3.0/27" "rr5w" (some "top zone") "" "" [c5wkid]

def c6wnode : RTree := .mk "172.16.0.0/24" "rc6" (some "backbone") "" "" []

def c7wa : RTree := .mk "10.1.0.0/28" "ra7" (some "free A") "" "" []

def c7wb : RTree := .mk "10.1.0.16/28" "rb7" (some "free B") "" "" []


@[simp] theorem mstep_addEvs_nil (s : MStep) : MStep.addEvs [] s = s := by
  cases s <;> simp [MStep.addEvs]

@[simp] theorem mstep_addEvs_addEvs (a b : List Ev) (s : MStep) :
    MStep.addEvs a (MStep.addEvs b s) = MStep.addEvs (a ++ b) s := by
  cases s <;> simp [MStep.addEvs]

@[simp] theorem mstep_evs_addEvs (a : List Ev) (s : MStep) :
    (MStep.addEvs a s).evs = a ++ s.evs := by
  cases s <;> simp [MStep.addEvs, MStep.evs]

@[simp] theorem mstep_strip_addEvs (a : List Ev) (s : MStep) :
    (MStep.addEvs a s).strip = s.strip := by
  cases s <;> simp [MStep.addEvs, MStep.strip]

@[simp] theorem mstep_isStop_addEvs (a : List Ev) (s : MStep) :
    (MStep.addEvs a s).isStop = s.isStop := by
  cases s <;> simp [MStep.addEvs, MStep.isStop]

@[simp] theorem mout_addEvs_nil (s : MOut) : MOut.addEvs [] s = s := by
  cases s <;> simp [MOut.addEvs]

@[simp] theorem mout_addEvs_addEvs (a b : List Ev) (s : MOut) :
    MOut.addEvs a (MOut.addEvs b s) = MOut.addEvs (a ++ b) s := by
  cases s <;> simp [MOut.addEvs]

@[simp] theorem mout_evs_addEvs (a : List Ev) (s : MOut) :
    (MOut.addEvs a s).evs = a ++ s.evs := by
  cases s <;> simp [MOut.addEvs, MOut.evs]

@[simp] theorem mout_strip_addEvs (a : List Ev) (s : MOut) :
    (MOut.addEvs a s).strip = s.strip := by
  cases s <;> simp [MOut.addEvs, MOut.strip]

@[simp] theorem lstep_addEvs_nil (s : LStep) : LStep.addEvs [] s = s := by
  cases s <;> simp [LStep.addEvs]

@[simp] theorem lstep_addEvs_addEvs (a b : List Ev) (s : LStep) :
    LStep.addEvs a (LStep.addEvs b s) = LStep.addEvs (a ++ b) s := by
  cases s <;> simp [LStep.addEvs]

@[simp] theorem evsNoPut_append (a b : List Ev) :
    evsNoPut (a ++ b) = (evsNoPut a && evsNoPut b) := by
  simp [evsNoPut, List.all_append]

@[simp] theorem evsNoPut_nil : evsNoPut [] = true := rfl

@[simp] theorem evsPuts_append (a b : List Ev) :
    evsPuts (a ++ b) = evsPuts a ++ evsPuts b := by
  simp [evsPuts]

theorem evsPuts_eq_nil_of_noPut {e : List Ev} (h : evsNoPut e = true) :
    evsPuts e = [] := by
  induction e with
  | nil => rfl
  | cons ev rest ih =>
    have h' : evNotPut ev = true ∧ evsNoPut rest = true := by
      simpa [evsNoPut, List.all_cons, Bool.and_eq_true] using h
    simpa [evsPuts, List.filter_cons, h'.1] using ih h'.2

@[simp] theorem mstep_stopOut_addEvs (a : List Ev) (s : MStep) :
    (MStep.addEvs a s).stopOut = MOut.addEvs a s.stopOut := by
  cases s <;> simp [MStep.addEvs, MStep.stopOut, MOut.addEvs]

@[simp] theorem evsNoPut_cons (x : Ev) (l : List Ev) :
    evsNoPut (x :: l) = (evNotPut x && evsNoPut l) := by
  simp [evsNoPut, List.all_cons]

theorem allParseT_parts {c : RTree} (h : allParseT c = true) :
    (cidrPlen c.name).isSome = true ∧ allParseL c.children = true := by
  obtain ⟨n, r, ti, g, p, cs⟩ := c
  simpa [allParseT, RTree.name, RTree.children, Bool.and_eq_true] using h

theorem noGetWT_parts {c : RTree} (h : noGetWT c = true) :
    c.getW = "" ∧ noGetWL c.children = true := by
  obtain ⟨n, r, ti, g, p, cs⟩ := c
  simpa [noGetWT, RTree.getW, RTree.children, Bool.and_eq_true] using h

theorem noPutWT_parts {c : RTree} (h : noPutWT c = true) :
    c.putW = "" ∧ noPutWL c.children = true := by
  obtain ⟨n, r, ti, g, p, cs⟩ := c
  simpa [noPutWT, RTree.putW, RTree.children, Bool.and_eq_true] using h

/-- Shape of the module `recurse_ranges` at a node satisfying the match
condition: it exits with the node's CIDR (`changed` set exactly when a new
title was requested, a PUT event exactly when additionally not in check
mode), unless the PUT response carries warnings, in which case it fails
with them. -/
theorem recurseM_qual_or (t : Int) (tt nt : String) (cm : Bool) (m : RTree)
    (hq : qualNode t tt m = true) :
    recurseM t tt nt cm m =
        .exit m.name (decide (nt ≠ "")) (Ev.visit m.name m.title :: putTail nt cm m) ∨
    (nt ≠ "" ∧ cm = false ∧ m.putW ≠ "" ∧
      recurseM t tt nt cm m =
        .fail m.putW [Ev.visit m.name m.title, Ev.put m.ref m.ref nt "Ansible API"]) := by
  obtain ⟨name, ref, title, gw, pw, cs⟩ := m
  simp only [qualNode, RTree.name, RTree.title] at hq
  cases hp : cidrPlen name with
  | none => rw [hp] at hq; simp at hq
  | some p =>
    rw [hp] at hq
    simp only [] at hq
    by_cases hnt : nt = ""
    · left
      simp [recurseM, hp, hq, hnt, putTail, RTree.name, RTree.title]
    · by_cases hcm : cm = true
      · left
        simp [recurseM, hp, hq, hnt, hcm, putTail, RTree.name, RTree.title]
      · have hcm' : cm = false := by revert hcm; cases cm <;> simp
        by_cases hpw : pw = ""
        · left
          simp [recurseM, hp, hq, hnt, hcm', hpw, putTail,
            RTree.name, RTree.title, RTree.ref, RTree.putW]
        · right
          refine ⟨hnt, hcm', by simpa [RTree.putW] using hpw, ?_⟩
          simp [recurseM, hp, hq, hnt, hcm', hpw,
            RTree.name, RTree.title, RTree.ref, RTree.putW]

theorem recurseM_qual_isStop (t : Int) (tt nt : String) (cm : Bool) (m : RTree)
    (hq : qualNode t tt m = true) :
    (recurseM t tt nt cm m).isStop = true := by
  rcases recurseM_qual_or t tt nt cm m hq with h | ⟨_, _, _, h⟩ <;>
    rw [h] <;> rfl

/-- One step of the module child loop when the child's GET has warnings. -/
theorem kidsStep_getW (t : Int) (tt nt : String) (cm : Bool) (c : RTree)
    (rest : List RTree) (hgw : c.getW ≠ "") :
    recurseMKids t tt nt cm (c :: rest) = .fail c.getW [Ev.get c.ref] := by
  simp [recurseMKids, hgw]

/-- One step of the module child loop when the child search continues. -/
theorem kidsStep_cont (t : Int) (tt nt : String) (cm : Bool) (c : RTree)
    (rest : List RTree) (e : List Ev) (hgw : c.getW = "")
    (hrec : recurseM t tt nt cm c = .cont e) :
    recurseMKids t tt nt cm (c :: rest) =
      MStep.addEvs (Ev.get c.ref :: e) (recurseMKids t tt nt cm rest) := by
  simp [recurseMKids, hgw, hrec]

/-- One step of the module child loop when the child search stops. -/
theorem kidsStep_stop (t : Int) (tt nt : String) (cm : Bool) (c : RTree)
    (rest : List RTree) (s : MStep) (pre : List Ev) (hgw : c.getW = "")
    (hrec : recurseM t tt nt cm c = MStep.addEvs pre s) (hs : s.isStop = true) :
    recurseMKids t tt nt cm (c :: rest) = MStep.addEvs (Ev.get c.ref :: pre) s := by
  cases s with
  | cont e => simp [MStep.isStop] at hs
  | crash e => simp [MStep.isStop] at hs
  | exit cd ch e =>
    simp only [MStep.addEvs] at hrec ⊢
    simp [recurseMKids, hgw, hrec]
  | fail msg e =>
    simp only [MStep.addEvs] at hrec ⊢
    simp [recurseMKids, hgw, hrec]

/-- One step of the top-level range loop when the search continues. -/
theorem runRangesStep_cont (t : Int) (tt nt : String) (cm : Bool) (r : RTree)
    (rest : List RTree) (e : List Ev)
    (hrec : recurseM t tt nt cm r = .cont e) :
    runRanges t tt nt cm (r :: rest) =
      MStep.addEvs e (runRanges t tt nt cm rest) := by
  simp [runRanges, hrec]

/-- One step of the top-level range loop when the search stops. -/
theorem runRangesStep_stop (t : Int) (tt nt : String) (cm : Bool) (r : RTree)
    (rest : List RTree) (s : MStep) (pre : List Ev)
    (hrec : recurseM t tt nt cm r = MStep.addEvs pre s) (hs : s.isStop = true) :
    runRanges t tt nt cm (r :: rest) = MStep.addEvs pre s := by
  cases s with
  | cont e => simp [MStep.isStop] at hs
  | crash e => simp [MStep.isStop] at hs
  | exit cd ch e =>
    simp only [MStep.addEvs] at hrec ⊢
    simp [runRanges, hrec]
  | fail msg e =>
    simp only [MStep.addEvs] at hrec ⊢
    simp [runRanges, hrec]

/-- One step of the network loop when this network yields nothing. -/
theorem runModuleStep_cont (t : Int) (tt nt : String) (cm : Bool) (q : NetQuery)
    (rest : List NetQuery) (e : List Ev) (hqw : q.warnings = "")
    (hrr : runRanges t tt nt cm q.ranges = .cont e) :
    runModule t tt nt cm (q :: rest) =
      MOut.addEvs (Ev.get "Ranges" :: e) (runModule t tt nt cm rest) := by
  simp [runModule, hqw, hrr]

/-- One step of the network loop when the search stops inside it. -/
theorem runModuleStep_stop (t : Int) (tt nt : String) (cm : Bool) (q : NetQuery)
    (rest : List NetQuery) (s : MStep) (pre : List Ev) (hqw : q.warnings = "")
    (hrr : runRanges t tt nt cm q.ranges = MStep.addEvs pre s)
    (hs : s.isStop = true) :
    runModule t tt nt cm (q :: rest) =
      MOut.addEvs (Ev.get "Ranges" :: pre) s.stopOut := by
  cases s with
  | cont e => simp [MStep.isStop] at hs
  | crash e => simp [MStep.isStop] at hs
  | exit cd ch e =>
    simp only [MStep.addEvs] at hrr ⊢
    simp [runModule, hqw, hrr, MStep.stopOut, MOut.addEvs]
  | fail msg e =>
    simp only [MStep.addEvs] at hrr ⊢
    simp [runModule, hqw, hrr, MStep.stopOut, MOut.addEvs]

mutual

/-- Every node listed by `reachQuals` satisfies the match condition. -/
theorem reachQuals_qual (t : Int) (tt : String) (r : RTree) :
    ∀ x ∈ reachQuals t tt r, qualNode t tt x = true := by
  cases r with
  | mk name ref title gw pw cs =>
    intro x hx
    cases hp : cidrPlen name with
    | none => simp [reachQuals, hp] at hx
    | some p =>
      by_cases hm : matchCond t tt p title = true
      · simp [reachQuals, hp, hm] at hx
        subst hx
        simp [qualNode, RTree.name, RTree.title, hp, hm]
      · simp [reachQuals, hp, hm] at hx
        exact reachQualsKids_qual t tt cs x hx.2

theorem reachQualsKids_qual (t : Int) (tt : String) (cs : List RTree) :
    ∀ x ∈ reachQualsKids t tt cs, qualNode t tt x = true := by
  cases cs with
  | nil => intro x hx; simp [reachQualsKids] at hx
  | cons c rest =>
    intro x hx
    rw [reachQualsKids, List.mem_append] at hx
    cases hx with
    | inl h => exact reachQuals_qual t tt c x h
    | inr h => exact reachQualsKids_qual t tt rest x h

end

theorem reachQualsEnv_qual (t : Int) (tt : String) (env : List NetQuery) :
    ∀ x ∈ reachQualsEnv t tt env, qualNode t tt x = true := by
  induction env with
  | nil => intro x hx; simp [reachQualsEnv] at hx
  | cons q rest ih =>
    intro x hx
    rw [reachQualsEnv, List.mem_append] at hx
    cases hx with
    | inl h => exact reachQualsKids_qual t tt q.ranges x h
    | inr h => exact ih x h

mutual

/-- A tree with no qualifying node anywhere has no reachable match. -/
theorem reachQuals_nil_of_noQual (t : Int) (tt : String) (r : RTree)
    (h : noQualT t tt r = true) : reachQuals t tt r = [] := by
  cases r with
  | mk name ref title gw pw cs =>
    simp only [noQualT, Bool.and_eq_true] at h
    cases hp : cidrPlen name with
    | none => simp [reachQuals, hp]
    | some p =>
      have hm : matchCond t tt p title = false := by
        have := h.1
        rw [hp] at this
        simpa using this
      simp [reachQuals, hp, hm]
      intro _ _
      exact reachQualsKids_nil_of_noQual t tt cs h.2

theorem reachQualsKids_nil_of_noQual (t : Int) (tt : String) (cs : List RTree)
    (h : noQualL t tt cs = true) : reachQualsKids t tt cs = [] := by
  cases cs with
  | nil => rfl
  | cons c rest =>
    simp only [noQualL, Bool.and_eq_true] at h
    rw [reachQualsKids, reachQuals_nil_of_noQual t tt c h.1,
      reachQualsKids_nil_of_noQual t tt rest h.2]
    rfl

end

theorem reachQualsEnv_nil_of_noQual (t : Int) (tt : String) (env : List NetQuery)
    (h : envNoQual t tt env = true) : reachQualsEnv t tt env = [] := by
  induction env with
  | nil => rfl
  | cons q rest ih =>
    simp only [envNoQual, Bool.and_eq_true] at h
    rw [reachQualsEnv, reachQualsKids_nil_of_noQual t tt q.ranges h.1, ih h.2]
    rfl

mutual

/-- Characterization of the module search on a well-formed tree: with no
reachable qualifying node it returns normally, with a PUT-free event list;
otherwise it behaves exactly as processing the first reachable qualifying
node, preceded by a PUT-free event prefix. -/
theorem recurseM_char (t : Int) (tt nt : String) (cm : Bool) (r : RTree)
    (hp : allParseT r = true) (hw : noGetWT r = true) :
    (reachQuals t tt r = [] →
      ∃ e, recurseM t tt nt cm r = .cont e ∧ evsNoPut e = true) ∧
    (∀ m ms, reachQuals t tt r = m :: ms →
      ∃ pre, evsNoPut pre = true ∧
        recurseM t tt nt cm r = MStep.addEvs pre (recurseM t tt nt cm m)) := by
  obtain ⟨name, ref, title, gw, pw, cs⟩ := r
  simp only [allParseT, noGetWT, Bool.and_eq_true] at hp hw
  obtain ⟨p, hp1⟩ := Option.isSome_iff_exists.mp hp.1
  have hkids := recurseMKids_char t tt nt cm cs hp.2 hw.2
  by_cases hm : matchCond t tt p title = true
  · constructor
    · intro hnil
      simp [reachQuals, hp1, hm] at hnil
    · intro m ms hcons
      have : RTree.mk name ref title gw pw cs = m ∧ ([] : List RTree) = ms := by
        have h := hcons
        rw [reachQuals, hp1] at h
        simp [hm] at h
        exact ⟨h.1, h.2.symm⟩
      refine ⟨[], rfl, ?_⟩
      rw [mstep_addEvs_nil, this.1]
  · by_cases hd : p < 28 ∧ ¬cs = []
    · have hred : recurseM t tt nt cm (RTree.mk name ref title gw pw cs) =
          MStep.addEvs [Ev.visit name title] (recurseMKids t tt nt cm cs) := by
        simp [recurseM, hp1, hm, hd]
      have hrq : reachQuals t tt (RTree.mk name ref title gw pw cs) =
          reachQualsKids t tt cs := by
        rw [reachQuals, hp1]
        simp [hm, hd]
      constructor
      · intro hnil
        rw [hrq] at hnil
        obtain ⟨e, he, hnp⟩ := hkids.1 hnil
        refine ⟨Ev.visit name title :: e, ?_, ?_⟩
        · rw [hred, he]; rfl
        · simp [evNotPut, hnp]
      · intro m ms hcons
        rw [hrq] at hcons
        obtain ⟨pre, hnp, hrec⟩ := hkids.2 m ms hcons
        refine ⟨Ev.visit name title :: pre, by simp [evNotPut, hnp], ?_⟩
        rw [hred, hrec, mstep_addEvs_addEvs]
        rfl
    · have hred : recurseM t tt nt cm (RTree.mk name ref title gw pw cs) =
          .cont [Ev.visit name title] := by
        simp [recurseM, hp1, hm, hd]
      have hrq : reachQuals t tt (RTree.mk name ref title gw pw cs) = [] := by
        rw [reachQuals, hp1]
        simp [hm, hd]
      constructor
      · intro _
        exact ⟨[Ev.visit name title], hred, rfl⟩
      · intro m ms hcons
        rw [hrq] at hcons
        exact absurd hcons (by simp)

theorem recurseMKids_char (t : Int) (tt nt : String) (cm : Bool) (cs : List RTree)
    (hp : allParseL cs = true) (hw : noGetWL cs = true) :
    (reachQualsKids t tt cs = [] →
      ∃ e, recurseMKids t tt nt cm cs = .cont e ∧ evsNoPut e = true) ∧
    (∀ m ms, reachQualsKids t tt cs = m :: ms →
      ∃ pre, evsNoPut pre = true ∧
        recurseMKids t tt nt cm cs = MStep.addEvs pre (recurseM t tt nt cm m)) := by
  cases cs with
  | nil =>
    exact ⟨fun _ => ⟨[], rfl, rfl⟩, fun m ms hcons => absurd hcons (by simp [reachQualsKids])⟩
  | cons c rest =>
    simp only [allParseL, noGetWL, Bool.and_eq_true] at hp hw
    have hgw : c.getW = "" := (noGetWT_parts hw.1).1
    have hchar_c := recurseM_char t tt nt cm c hp.1 hw.1
    have hchar_rest := recurseMKids_char t tt nt cm rest hp.2 hw.2
    rcases hq : reachQuals t tt c with _ | ⟨m0, ms0⟩
    · obtain ⟨e, he, hnp⟩ := hchar_c.1 hq
      have hred := kidsStep_cont t tt nt cm c rest e hgw he
      have hrq : reachQualsKids t tt (c :: rest) = reachQualsKids t tt rest := by
        rw [reachQualsKids, hq]; rfl
      constructor
      · intro hnil
        rw [hrq] at hnil
        obtain ⟨e2, he2, hnp2⟩ := hchar_rest.1 hnil
        refine ⟨(Ev.get c.ref :: e) ++ e2, ?_, ?_⟩
        · rw [hred, he2]; rfl
        · simp [evNotPut, hnp, hnp2]
      · intro m ms hcons
        rw [hrq] at hcons
        obtain ⟨pre, hnp2, hrec⟩ := hchar_rest.2 m ms hcons
        refine ⟨(Ev.get c.ref :: e) ++ pre, by simp [evNotPut, hnp, hnp2], ?_⟩
        rw [hred, hrec, mstep_addEvs_addEvs]
    · obtain ⟨pre, hnp, hrec⟩ := hchar_c.2 m0 ms0 hq
      have hq0 : qualNode t tt m0 = true :=
        reachQuals_qual t tt c m0 (by rw [hq]; exact List.mem_cons_self _ _)
      have hstop : (recurseM t tt nt cm m0).isStop = true :=
        recurseM_qual_isStop t tt nt cm m0 hq0
      have hred := kidsStep_stop t tt nt cm c rest _ pre hgw hrec hstop
      have hrq : reachQualsKids t tt (c :: rest) =
          m0 :: (ms0 ++ reachQualsKids t tt rest) := by
        rw [reachQualsKids, hq]; rfl
      constructor
      · intro hnil
        rw [hrq] at hnil
        exact absurd hnil (by simp)
      · intro m ms hcons
        rw [hrq] at hcons
        have hm0 : m0 = m := (List.cons.injEq _ _ _ _ ▸ hcons).1
        refine ⟨Ev.get c.ref :: pre, by simp [evNotPut, hnp], ?_⟩
        rw [← hm0, hred]

end

/-- `recurseMKids_char` lifted to the top-level range loop of one
network. -/
theorem runRanges_char (t : Int) (tt nt : String) (cm : Bool) (rs : List RTree)
    (hp : allParseL rs = true) (hw : noGetWL rs = true) :
    (reachQualsKids t tt rs = [] →
      ∃ e, runRanges t tt nt cm rs = .cont e ∧ evsNoPut e = true) ∧
    (∀ m ms, reachQualsKids t tt rs = m :: ms →
      ∃ pre, evsNoPut pre = true ∧
        runRanges t tt nt cm rs = MStep.addEvs pre (recurseM t tt nt cm m)) := by
  induction rs with
  | nil =>
    exact ⟨fun _ => ⟨[], rfl, rfl⟩, fun m ms hcons => absurd hcons (by simp [reachQualsKids])⟩
  | cons r rest ih =>
    simp only [allParseL, noGetWL, Bool.and_eq_true] at hp hw
    have hchar_r := recurseM_char t tt nt cm r hp.1 hw.1
    have hrest := ih hp.2 hw.2
    rcases hq : reachQuals t tt r with _ | ⟨m0, ms0⟩
    · obtain ⟨e, he, hnp⟩ := hchar_r.1 hq
      have hred := runRangesStep_cont t tt nt cm r rest e he
      have hrq : reachQualsKids t tt (r :: rest) = reachQualsKids t tt rest := by
        rw [reachQualsKids, hq]; rfl
      constructor
      · intro hnil
        rw [hrq] at hnil
        obtain ⟨e2, he2, hnp2⟩ := hrest.1 hnil
        refine ⟨e ++ e2, ?_, ?_⟩
        · rw [hred, he2]; rfl
        · simp [hnp, hnp2]
      · intro m ms hcons
        rw [hrq] at hcons
        obtain ⟨pre, hnp2, hrec⟩ := hrest.2 m ms hcons
        refine ⟨e ++ pre, by simp [hnp, hnp2], ?_⟩
        rw [hred, hrec, mstep_addEvs_addEvs]
    · obtain ⟨pre, hnp, hrec⟩ := hchar_r.2 m0 ms0 hq
      have hq0 : qualNode t tt m0 = true :=
        reachQuals_qual t tt r m0 (by rw [hq]; exact List.mem_cons_self _ _)
      have hstop : (recurseM t tt nt cm m0).isStop = true :=
        recurseM_qual_isStop t tt nt cm m0 hq0
      have hred := runRangesStep_stop t tt nt cm r rest _ pre hrec hstop
      have hrq : reachQualsKids t tt (r :: rest) =
          m0 :: (ms0 ++ reachQualsKids t tt rest) := by
        rw [reachQualsKids, hq]; rfl
      constructor
      · intro hnil
        rw [hrq] at hnil
        exact absurd hnil (by simp)
      · intro m ms hcons
        rw [hrq] at hcons
        have hm0 : m0 = m := (List.cons.injEq _ _ _ _ ▸ hcons).1
        exact ⟨pre, hnp, by rw [← hm0, hred]⟩

/-- Characterization of the whole module run on a well-formed environment:
no reachable qualifying node anywhere gives the not-found failure with no
PUT issued; otherwise the outcome is that of the first reachable
qualifying node. -/
theorem runModule_char (t : Int) (tt nt : String) (cm : Bool) (env : List NetQuery)
    (hp : envAllParse env = true) (hw : envNoGetW env = true) :
    (reachQualsEnv t tt env = [] →
      ∃ e, runModule t tt nt cm env = .notFound (notFoundMsg t) e ∧ evsNoPut e = true) ∧
    (∀ m ms, reachQualsEnv t tt env = m :: ms →
      ∃ pre, evsNoPut pre = true ∧
        runModule t tt nt cm env =
          MOut.addEvs pre (recurseM t tt nt cm m).stopOut) := by
  induction env with
  | nil =>
    exact ⟨fun _ => ⟨[], rfl, rfl⟩, fun m ms hcons => absurd hcons (by simp [reachQualsEnv])⟩
  | cons q rest ih =>
    simp only [envAllParse, envNoGetW, Bool.and_eq_true] at hp hw
    have hqw : q.warnings = "" := by
      have := hw.1.1
      simpa using this
    have hrr := runRanges_char t tt nt cm q.ranges hp.1 hw.1.2
    have hrest := ih hp.2 hw.2
    rcases hq : reachQualsKids t tt q.ranges with _ | ⟨m0, ms0⟩
    · obtain ⟨e, he, hnp⟩ := hrr.1 hq
      have hred := runModuleStep_cont t tt nt cm q rest e hqw he
      have hrq : reachQualsEnv t tt (q :: rest) = reachQualsEnv t tt rest := by
        rw [reachQualsEnv, hq]; rfl
      constructor
      · intro hnil
        rw [hrq] at hnil
        obtain ⟨e2, he2, hnp2⟩ := hrest.1 hnil
        refine ⟨(Ev.get "Ranges" :: e) ++ e2, ?_, ?_⟩
        · rw [hred, he2]; rfl
        · simp [evNotPut, hnp, hnp2]
      · intro m ms hcons
        rw [hrq] at hcons
        obtain ⟨pre, hnp2, hrec⟩ := hrest.2 m ms hcons
        refine ⟨(Ev.get "Ranges" :: e) ++ pre, by simp [evNotPut, hnp, hnp2], ?_⟩
        rw [hred, hrec, mout_addEvs_addEvs]
    · obtain ⟨pre, hnp, hrec⟩ := hrr.2 m0 ms0 hq
      have hq0 : qualNode t tt m0 = true :=
        reachQualsKids_qual t tt q.ranges m0 (by rw [hq]; exact List.mem_cons_self _ _)
      have hstop : (recurseM t tt nt cm m0).isStop = true :=
        recurseM_qual_isStop t tt nt cm m0 hq0
      have hred := runModuleStep_stop t tt nt cm q rest _ pre hqw hrec hstop
      have hrq : reachQualsEnv t tt (q :: rest) =
          m0 :: (ms0 ++ reachQualsEnv t tt rest) := by
        rw [reachQualsEnv, hq]; rfl
      constructor
      · intro hnil
        rw [hrq] at hnil
        exact absurd hnil (by simp)
      · intro m ms hcons
        rw [hrq] at hcons
        have hm0 : m0 = m := (List.cons.injEq _ _ _ _ ▸ hcons).1
        exact ⟨Ev.get "Ranges" :: pre, by simp [evNotPut, hnp], by rw [← hm0, hred]⟩

mutual

/-- Characterization of the lookup search on a tree whose names all parse
(the lookup variant never inspects warnings, so no warning hypothesis is
needed): no reachable qualifying node gives `[]`, otherwise the name of
the first reachable qualifying node. -/
theorem recurseL_char (t : Int) (tt : String) (r : RTree)
    (hp : allParseT r = true) :
    (reachQuals t tt r = [] → ∃ e, recurseL t tt r = .res [] e) ∧
    (∀ m ms, reachQuals t tt r = m :: ms →
      ∃ e, recurseL t tt r = .res [m.name] e) := by
  obtain ⟨name, ref, title, gw, pw, cs⟩ := r
  simp only [allParseT, Bool.and_eq_true] at hp
  obtain ⟨p, hp1⟩ := Option.isSome_iff_exists.mp hp.1
  have hkids := recurseLKids_char t tt cs hp.2
  by_cases hm : matchCond t tt p title = true
  · constructor
    · intro hnil
      simp [reachQuals, hp1, hm] at hnil
    · intro m ms hcons
      have hmm : RTree.mk name ref title gw pw cs = m := by
        have h := hcons
        rw [reachQuals, hp1] at h
        simp [hm] at h
        exact h.1
      refine ⟨[Ev.visit name title], ?_⟩
      rw [← hmm]
      simp [recurseL, hp1, hm, RTree.name]
  · by_cases hd : p < 28 ∧ ¬cs = []
    · have hred : recurseL t tt (RTree.mk name ref title gw pw cs) =
          LStep.addEvs [Ev.visit name title] (recurseLKids t tt cs) := by
        simp [recurseL, hp1, hm, hd]
      have hrq : reachQuals t tt (RTree.mk name ref title gw pw cs) =
          reachQualsKids t tt cs := by
        rw [reachQuals, hp1]
        simp [hm, hd]
      constructor
      · intro hnil
        rw [hrq] at hnil
        obtain ⟨e, he⟩ := hkids.1 hnil
        exact ⟨Ev.visit name title :: e, by rw [hred, he]; rfl⟩
      · intro m ms hcons
        rw [hrq] at hcons
        obtain ⟨e, he⟩ := hkids.2 m ms hcons
        exact ⟨Ev.visit name title :: e, by rw [hred, he]; rfl⟩
    · have hred : recurseL t tt (RTree.mk name ref title gw pw cs) =
          .res [] [Ev.visit name title] := by
        simp [recurseL, hp1, hm, hd]
      have hrq : reachQuals t tt (RTree.mk name ref title gw pw cs) = [] := by
        rw [reachQuals, hp1]
        simp [hm, hd]
      constructor
      · intro _
        exact ⟨[Ev.visit name title], hred⟩
      · intro m ms hcons
        rw [hrq] at hcons
        exact absurd hcons (by simp)

theorem recurseLKids_char (t : Int) (tt : String) (cs : List RTree)
    (hp : allParseL cs = true) :
    (reachQualsKids t tt cs = [] → ∃ e, recurseLKids t tt cs = .res [] e) ∧
    (∀ m ms, reachQualsKids t tt cs = m :: ms →
      ∃ e, recurseLKids t tt cs = .res [m.name] e) := by
  cases cs with
  | nil =>
    exact ⟨fun _ => ⟨[], rfl⟩, fun m ms hcons => absurd hcons (by simp [reachQualsKids])⟩
  | cons c rest =>
    simp only [allParseL, Bool.and_eq_true] at hp
    have hchar_c := recurseL_char t tt c hp.1
    have hchar_rest := recurseLKids_char t tt rest hp.2
    rcases hq : reachQuals t tt c with _ | ⟨m0, ms0⟩
    · obtain ⟨e, he⟩ := hchar_c.1 hq
      have hred : recurseLKids t tt (c :: rest) =
          LStep.addEvs (Ev.get c.ref :: e) (recurseLKids t tt rest) := by
        simp [recurseLKids, he]
      have hrq : reachQualsKids t tt (c :: rest) = reachQualsKids t tt rest := by
        rw [reachQualsKids, hq]; rfl
      constructor
      · intro hnil
        rw [hrq] at hnil
        obtain ⟨e2, he2⟩ := hchar_rest.1 hnil
        exact ⟨(Ev.get c.ref :: e) ++ e2, by rw [hred, he2]; rfl⟩
      · intro m ms hcons
        rw [hrq] at hcons
        obtain ⟨e2, he2⟩ := hchar_rest.2 m ms hcons
        exact ⟨(Ev.get c.ref :: e) ++ e2, by rw [hred, he2]; rfl⟩
    · obtain ⟨e, he⟩ := hchar_c.2 m0 ms0 hq
      have hred : recurseLKids t tt (c :: rest) =
          .res [m0.name] (Ev.get c.ref :: e) := by
        simp [recurseLKids, he]
      have hrq : reachQualsKids t tt (c :: rest) =
          m0 :: (ms0 ++ reachQualsKids t tt rest) := by
        rw [reachQualsKids, hq]; rfl
      constructor
      · intro hnil
        rw [hrq] at hnil
        exact absurd hnil (by simp)
      · intro m ms hcons
        rw [hrq] at hcons
        have hm0 : m0 = m := (List.cons.injEq _ _ _ _ ▸ hcons).1
        exact ⟨Ev.get c.ref :: e, by rw [← hm0, hred]⟩

end

/-- `recurseLKids_char` lifted to the lookup's top-level range loop. -/
theorem runLRanges_char (t : Int) (tt : String) (rs : List RTree)
    (hp : allParseL rs = true) :
    (reachQualsKids t tt rs = [] → ∃ e, runLRanges t tt rs = .res [] e) ∧
    (∀ m ms, reachQualsKids t tt rs = m :: ms →
      ∃ e, runLRanges t tt rs = .res [m.name] e) := by
  induction rs with
  | nil =>
    exact ⟨fun _ => ⟨[], rfl⟩, fun m ms hcons => absurd hcons (by simp [reachQualsKids])⟩
  | cons r rest ih =>
    simp only [allParseL, Bool.and_eq_true] at hp
    have hchar_r := recurseL_char t tt r hp.1
    have hrest := ih hp.2
    rcases hq : reachQuals t tt r with _ | ⟨m0, ms0⟩
    · obtain ⟨e, he⟩ := hchar_r.1 hq
      have hred : runLRanges t tt (r :: rest) =
          LStep.addEvs e (runLRanges t tt rest) := by
        simp [runLRanges, he]
      have hrq : reachQualsKids t tt (r :: rest) = reachQualsKids t tt rest := by
        rw [reachQualsKids, hq]; rfl
      constructor
      · intro hnil
        rw [hrq] at hnil
        obtain ⟨e2, he2⟩ := hrest.1 hnil
        exact ⟨e ++ e2, by rw [hred, he2]; rfl⟩
      · intro m ms hcons
        rw [hrq] at hcons
        obtain ⟨e2, he2⟩ := hrest.2 m ms hcons
        exact ⟨e ++ e2, by rw [hred, he2]; rfl⟩
    · obtain ⟨e, he⟩ := hchar_r.2 m0 ms0 hq
      have hred : runLRanges t tt (r :: rest) = .res [m0.name] e := by
        simp [runLRanges, he]
      have hrq : reachQualsKids t tt (r :: rest) =
          m0 :: (ms0 ++ reachQualsKids t tt rest) := by
        rw [reachQualsKids, hq]; rfl
      constructor
      · intro hnil
        rw [hrq] at hnil
        exact absurd hnil (by simp)
      · intro m ms hcons
        rw [hrq] at hcons
        have hm0 : m0 = m := (List.cons.injEq _ _ _ _ ▸ hcons).1
        exact ⟨e, by rw [← hm0, hred]⟩

/-- Characterization of the whole lookup run on an environment whose names
all parse: an empty result list exactly when no reachable qualifying node
exists, else the first reachable qualifying node's name, and never an
exception. -/
theorem runL_char (t : Int) (tt : String) (env : List NetQuery)
    (hp : envAllParse env = true) :
    (reachQualsEnv t tt env = [] → ∃ e, runL t tt env = .res [] e) ∧
    (∀ m ms, reachQualsEnv t tt env = m :: ms →
      ∃ e, runL t tt env = .res [m.name] e) := by
  induction env with
  | nil =>
    exact ⟨fun _ => ⟨[], rfl⟩, fun m ms hcons => absurd hcons (by simp [reachQualsEnv])⟩
  | cons q rest ih =>
    simp only [envAllParse, Bool.and_eq_true] at hp
    have hrr := runLRanges_char t tt q.ranges hp.1
    have hrest := ih hp.2
    rcases hq : reachQualsKids t tt q.ranges with _ | ⟨m0, ms0⟩
    · obtain ⟨e, he⟩ := hrr.1 hq
      have hred : runL t tt (q :: rest) =
          LStep.addEvs (Ev.get "Ranges" :: e) (runL t tt rest) := by
        simp [runL, he]
      have hrq : reachQualsEnv t tt (q :: rest) = reachQualsEnv t tt rest := by
        rw [reachQualsEnv, hq]; rfl
      constructor
      · intro hnil
        rw [hrq] at hnil
        obtain ⟨e2, he2⟩ := hrest.1 hnil
        exact ⟨(Ev.get "Ranges" :: e) ++ e2, by rw [hred, he2]; rfl⟩
      · intro m ms hcons
        rw [hrq] at hcons
        obtain ⟨e2, he2⟩ := hrest.2 m ms hcons
        exact ⟨(Ev.get "Ranges" :: e) ++ e2, by rw [hred, he2]; rfl⟩
    · obtain ⟨e, he⟩ := hrr.2 m0 ms0 hq
      have hred : runL t tt (q :: rest) = .res [m0.name] (Ev.get "Ranges" :: e) := by
        simp [runL, he]
      have hrq : reachQualsEnv t tt (q :: rest) =
          m0 :: (ms0 ++ reachQualsEnv t tt rest) := by
        rw [reachQualsEnv, hq]; rfl
      constructor
      · intro hnil
        rw [hrq] at hnil
        exact absurd hnil (by simp)
      · intro m ms hcons
        rw [hrq] at hcons
        have hm0 : m0 = m := (List.cons.injEq _ _ _ _ ▸ hcons).1
        exact ⟨Ev.get "Ranges" :: e, by rw [← hm0, hred]⟩

mutual

/-- In check mode the module recursion emits no PUT event at all. -/
theorem recurseM_noPut_cm (t : Int) (tt nt : String) (r : RTree) :
    evsNoPut (recurseM t tt nt true r).evs = true := by
  obtain ⟨name, ref, title, gw, pw, cs⟩ := r
  cases hp : cidrPlen name with
  | none => simp [recurseM, hp, MStep.evs, evNotPut]
  | some p =>
    by_cases hm : matchCond t tt p title = true
    · by_cases hnt : nt = "" <;> simp [recurseM, hp, hm, hnt, MStep.evs, evNotPut]
    · by_cases hd : p < 28 ∧ ¬cs = []
      · have h2 := recurseMKids_noPut_cm t tt nt cs
        simp [recurseM, hp, hm, hd, evNotPut, h2]
      · simp [recurseM, hp, hm, hd, MStep.evs, evNotPut]

theorem recurseMKids_noPut_cm (t : Int) (tt nt : String) (cs : List RTree) :
    evsNoPut (recurseMKids t tt nt true cs).evs = true := by
  cases cs with
  | nil => rfl
  | cons c rest =>
    by_cases hgw : c.getW ≠ ""
    · simp [recurseMKids, hgw, MStep.evs, evNotPut]
    · simp only [not_not] at hgw
      have h1 := recurseM_noPut_cm t tt nt c
      have h2 := recurseMKids_noPut_cm t tt nt rest
      cases hrec : recurseM t tt nt true c with
      | cont e =>
        rw [hrec] at h1
        simp only [MStep.evs] at h1
        simp [recurseMKids, hgw, hrec, evNotPut, h1, h2]
      | exit cd ch e =>
        rw [hrec] at h1
        simp only [MStep.evs] at h1
        simp [recurseMKids, hgw, hrec, MStep.evs, evNotPut, h1]
      | fail m e =>
        rw [hrec] at h1
        simp only [MStep.evs] at h1
        simp [recurseMKids, hgw, hrec, MStep.evs, evNotPut, h1]
      | crash e =>
        rw [hrec] at h1
        simp only [MStep.evs] at h1
        simp [recurseMKids, hgw, hrec, MStep.evs, evNotPut, h1]

end

theorem runRanges_noPut_cm (t : Int) (tt nt : String) (rs : List RTree) :
    evsNoPut (runRanges t tt nt true rs).evs = true := by
  induction rs with
  | nil => rfl
  | cons r rest ih =>
    have h1 := recurseM_noPut_cm t tt nt r
    cases hrec : recurseM t tt nt true r with
    | cont e =>
      rw [hrec] at h1
      simp only [MStep.evs] at h1
      simp [runRanges, hrec, evNotPut, h1, ih]
    | exit cd ch e =>
      rw [hrec] at h1
      simp only [MStep.evs] at h1
      simp [runRanges, hrec, MStep.evs, h1]
    | fail m e =>
      rw [hrec] at h1
      simp only [MStep.evs] at h1
      simp [runRanges, hrec, MStep.evs, h1]
    | crash e =>
      rw [hrec] at h1
      simp only [MStep.evs] at h1
      simp [runRanges, hrec, MStep.evs, h1]

/-- A check-mode (dry-run) module run issues zero PUT calls, whatever the
environment and parameters. -/
theorem runModule_noPut_cm (t : Int) (tt nt : String) (env : List NetQuery) :
    evsNoPut (runModule t tt nt true env).evs = true := by
  induction env with
  | nil => rfl
  | cons q rest ih =>
    by_cases hqw : q.warnings ≠ ""
    · simp [runModule, hqw, MOut.evs, evNotPut]
    · simp only [not_not] at hqw
      have h1 := runRanges_noPut_cm t tt nt q.ranges
      cases hrec : runRanges t tt nt true q.ranges with
      | cont e =>
        rw [hrec] at h1
        simp only [MStep.evs] at h1
        simp [runModule, hqw, hrec, evNotPut, h1, ih]
      | exit cd ch e =>
        rw [hrec] at h1
        simp only [MStep.evs] at h1
        simp [runModule, hqw, hrec, MOut.evs, evNotPut, h1]
      | fail m e =>
        rw [hrec] at h1
        simp only [MStep.evs] at h1
        simp [runModule, hqw, hrec, MOut.evs, evNotPut, h1]
      | crash e =>
        rw [hrec] at h1
        simp only [MStep.evs] at h1
        simp [runModule, hqw, hrec, MOut.evs, evNotPut, h1]

mutual

/-- With an empty `new_title` the module recursion emits no PUT event. -/
theorem recurseM_noPut_nt (t : Int) (tt : String) (cm : Bool) (r : RTree) :
    evsNoPut (recurseM t tt "" cm r).evs = true := by
  obtain ⟨name, ref, title, gw, pw, cs⟩ := r
  cases hp : cidrPlen name with
  | none => simp [recurseM, hp, MStep.evs, evNotPut]
  | some p =>
    by_cases hm : matchCond t tt p title = true
    · simp [recurseM, hp, hm, MStep.evs, evNotPut]
    · by_cases hd : p < 28 ∧ ¬cs = []
      · have h2 := recurseMKids_noPut_nt t tt cm cs
        simp [recurseM, hp, hm, hd, evNotPut, h2]
      · simp [recurseM, hp, hm, hd, MStep.evs, evNotPut]

theorem recurseMKids_noPut_nt (t : Int) (tt : String) (cm : Bool) (cs : List RTree) :
    evsNoPut (recurseMKids t tt "" cm cs).evs = true := by
  cases cs with
  | nil => rfl
  | cons c rest =>
    by_cases hgw : c.getW ≠ ""
    · simp [recurseMKids, hgw, MStep.evs, evNotPut]
    · simp only [not_not] at hgw
      have h1 := recurseM_noPut_nt t tt cm c
      have h2 := recurseMKids_noPut_nt t tt cm rest
      cases hrec : recurseM t tt "" cm c with
      | cont e =>
        rw [hrec] at h1
        simp only [MStep.evs] at h1
        simp [recurseMKids, hgw, hrec, evNotPut, h1, h2]
      | exit cd ch e =>
        rw [hrec] at h1
        simp only [MStep.evs] at h1
        simp [recurseMKids, hgw, hrec, MStep.evs, evNotPut, h1]
      | fail m e =>
        rw [hrec] at h1
        simp only [MStep.evs] at h1
        simp [recurseMKids, hgw, hrec, MStep.evs, evNotPut, h1]
      | crash e =>
        rw [hrec] at h1
        simp only [MStep.evs] at h1
        simp [recurseMKids, hgw, hrec, MStep.evs, evNotPut, h1]

end

theorem runRanges_noPut_nt (t : Int) (tt : String) (cm : Bool) (rs : List RTree) :
    evsNoPut (runRanges t tt "" cm rs).evs = true := by
  induction rs with
  | nil => rfl
  | cons r rest ih =>
    have h1 := recurseM_noPut_nt t tt cm r
    cases hrec : recurseM t tt "" cm r with
    | cont e =>
      rw [hrec] at h1
      simp only [MStep.evs] at h1
      simp [runRanges, hrec, evNotPut, h1, ih]
    | exit cd ch e =>
      rw [hrec] at h1
      simp only [MStep.evs] at h1
      simp [runRanges, hrec, MStep.evs, h1]
    | fail m e =>
      rw [hrec] at h1
      simp only [MStep.evs] at h1
      simp [runRanges, hrec, MStep.evs, h1]
    | crash e =>
      rw [hrec] at h1
      simp only [MStep.evs] at h1
      simp [runRanges, hrec, MStep.evs, h1]

/-- With an empty `new_title` the module run issues zero PUT calls. -/
theorem runModule_noPut_nt (t : Int) (tt : String) (cm : Bool) (env : List NetQuery) :
    evsNoPut (runModule t tt "" cm env).evs = true := by
  induction env with
  | nil => rfl
  | cons q rest ih =>
    by_cases hqw : q.warnings ≠ ""
    · simp [runModule, hqw, MOut.evs, evNotPut]
    · simp only [not_not] at hqw
      have h1 := runRanges_noPut_nt t tt cm q.ranges
      cases hrec : runRanges t tt "" cm q.ranges with
      | cont e =>
        rw [hrec] at h1
        simp only [MStep.evs] at h1
        simp [runModule, hqw, hrec, evNotPut, h1, ih]
      | exit cd ch e =>
        rw [hrec] at h1
        simp only [MStep.evs] at h1
        simp [runModule, hqw, hrec, MOut.evs, evNotPut, h1]
      | fail m e =>
        rw [hrec] at h1
        simp only [MStep.evs] at h1
        simp [runModule, hqw, hrec, MOut.evs, evNotPut, h1]
      | crash e =>
        rw [hrec] at h1
        simp only [MStep.evs] at h1
        simp [runModule, hqw, hrec, MOut.evs, evNotPut, h1]

mutual

/-- On a tree whose PUT responses carry no warnings, check mode changes
only the emitted events, never the stripped outcome of the recursion. -/
theorem recurseM_strip (t : Int) (tt nt : String) (r : RTree)
    (h : noPutWT r = true) :
    (recurseM t tt nt true r).strip = (recurseM t tt nt false r).strip := by
  obtain ⟨name, ref, title, gw, pw, cs⟩ := r
  simp only [noPutWT, Bool.and_eq_true] at h
  have hpw : pw = "" := by simpa using h.1
  cases hp : cidrPlen name with
  | none => simp [recurseM, hp]
  | some p =>
    by_cases hm : matchCond t tt p title = true
    · by_cases hnt : nt = "" <;>
        simp [recurseM, hp, hm, hnt, hpw, MStep.strip]
    · by_cases hd : p < 28 ∧ ¬cs = []
      · have h2 := recurseMKids_strip t tt nt cs h.2
        simp [recurseM, hp, hm, hd, h2]
      · simp [recurseM, hp, hm, hd]

theorem recurseMKids_strip (t : Int) (tt nt : String) (cs : List RTree)
    (h : noPutWL cs = true) :
    (recurseMKids t tt nt true cs).strip = (recurseMKids t tt nt false cs).strip := by
  cases cs with
  | nil => rfl
  | cons c rest =>
    simp only [noPutWL, Bool.and_eq_true] at h
    by_cases hgw : c.getW ≠ ""
    · simp [recurseMKids, hgw]
    · simp only [not_not] at hgw
      have h1 := recurseM_strip t tt nt c h.1
      have h2 := recurseMKids_strip t tt nt rest h.2
      cases ht : recurseM t tt nt true c with
      | cont e1 =>
        cases hf : recurseM t tt nt false c with
        | cont e2 => simp [recurseMKids, hgw, ht, hf, h2]
        | exit cd ch e2 => rw [ht, hf] at h1; simp [MStep.strip] at h1
        | fail m e2 => rw [ht, hf] at h1; simp [MStep.strip] at h1
        | crash e2 => rw [ht, hf] at h1; simp [MStep.strip] at h1
      | exit cd ch e1 =>
        cases hf : recurseM t tt nt false c with
        | cont e2 => rw [ht, hf] at h1; simp [MStep.strip] at h1
        | exit cd2 ch2 e2 =>
          rw [ht, hf] at h1
          simp only [MStep.strip, MStepS.exit.injEq] at h1
          simp [recurseMKids, hgw, ht, hf, MStep.strip, h1.1, h1.2]
        | fail m e2 => rw [ht, hf] at h1; simp [MStep.strip] at h1
        | crash e2 => rw [ht, hf] at h1; simp [MStep.strip] at h1
      | fail m e1 =>
        cases hf : recurseM t tt nt false c with
        | cont e2 => rw [ht, hf] at h1; simp [MStep.strip] at h1
        | exit cd2 ch2 e2 => rw [ht, hf] at h1; simp [MStep.strip] at h1
        | fail m2 e2 =>
          rw [ht, hf] at h1
          simp only [MStep.strip, MStepS.fail.injEq] at h1
          simp [recurseMKids, hgw, ht, hf, MStep.strip, h1]
        | crash e2 => rw [ht, hf] at h1; simp [MStep.strip] at h1
      | crash e1 =>
        cases hf : recurseM t tt nt false c with
        | cont e2 => rw [ht, hf] at h1; simp [MStep.strip] at h1
        | exit cd2 ch2 e2 => rw [ht, hf] at h1; simp [MStep.strip] at h1
        | fail m2 e2 => rw [ht, hf] at h1; simp [MStep.strip] at h1
        | crash e2 => simp [recurseMKids, hgw, ht, hf, MStep.strip]

end

theorem runRanges_strip (t : Int) (tt nt : String) (rs : List RTree)
    (h : noPutWL rs = true) :
    (runRanges t tt nt true rs).strip = (runRanges t tt nt false rs).strip := by
  induction rs with
  | nil => rfl
  | cons r rest ih =>
    simp only [noPutWL, Bool.and_eq_true] at h
    have h1 := recurseM_strip t tt nt r h.1
    have h2 := ih h.2
    cases ht : recurseM t tt nt true r with
    | cont e1 =>
      cases hf : recurseM t tt nt false r with
      | cont e2 => simp [runRanges, ht, hf, h2]
      | exit cd ch e2 => rw [ht, hf] at h1; simp [MStep.strip] at h1
      | fail m e2 => rw [ht, hf] at h1; simp [MStep.strip] at h1
      | crash e2 => rw [ht, hf] at h1; simp [MStep.strip] at h1
    | exit cd ch e1 =>
      cases hf : recurseM t tt nt false r with
      | cont e2 => rw [ht, hf] at h1; simp [MStep.strip] at h1
      | exit cd2 ch2 e2 =>
        rw [ht, hf] at h1
        simp only [MStep.strip, MStepS.exit.injEq] at h1
        simp [runRanges, ht, hf, MStep.strip, h1.1, h1.2]
      | fail m e2 => rw [ht, hf] at h1; simp [MStep.strip] at h1
      | crash e2 => rw [ht, hf] at h1; simp [MStep.strip] at h1
    | fail m e1 =>
      cases hf : recurseM t tt nt false r with
      | cont e2 => rw [ht, hf] at h1; simp [MStep.strip] at h1
      | exit cd2 ch2 e2 => rw [ht, hf] at h1; simp [MStep.strip] at h1
      | fail m2 e2 =>
        rw [ht, hf] at h1
        simp only [MStep.strip, MStepS.fail.injEq] at h1
        simp [runRanges, ht, hf, MStep.strip, h1]
      | crash e2 => rw [ht, hf] at h1; simp [MStep.strip] at h1
    | crash e1 =>
      cases hf : recurseM t tt nt false r with
      | cont e2 => rw [ht, hf] at h1; simp [MStep.strip] at h1
      | exit cd2 ch2 e2 => rw [ht, hf] at h1; simp [MStep.strip] at h1
      | fail m2 e2 => rw [ht, hf] at h1; simp [MStep.strip] at h1
      | crash e2 => simp [runRanges, ht, hf, MStep.strip]

/-- On an environment whose PUT responses carry no warnings, a check-mode
run and a non-check-mode run have the same stripped outcome. -/
theorem runModule_strip (t : Int) (tt nt : String) (env : List NetQuery)
    (h : envNoPutW env = true) :
    (runModule t tt nt true env).strip = (runModule t tt nt false env).strip := by
  induction env with
  | nil => rfl
  | cons q rest ih =>
    simp only [envNoPutW, Bool.and_eq_true] at h
    by_cases hqw : q.warnings ≠ ""
    · simp [runModule, hqw]
    · simp only [not_not] at hqw
      have h1 := runRanges_strip t tt nt q.ranges h.1
      have h2 := ih h.2
      cases ht : runRanges t tt nt true q.ranges with
      | cont e1 =>
        cases hf : runRanges t tt nt false q.ranges with
        | cont e2 => simp [runModule, hqw, ht, hf, h2]
        | exit cd ch e2 => rw [ht, hf] at h1; simp [MStep.strip] at h1
        | fail m e2 => rw [ht, hf] at h1; simp [MStep.strip] at h1
        | crash e2 => rw [ht, hf] at h1; simp [MStep.strip] at h1
      | exit cd ch e1 =>
        cases hf : runRanges t tt nt false q.ranges with
        | cont e2 => rw [ht, hf] at h1; simp [MStep.strip] at h1
        | exit cd2 ch2 e2 =>
          rw [ht, hf] at h1
          simp only [MStep.strip, MStepS.exit.injEq] at h1
          simp [runModule, hqw, ht, hf, MOut.strip, h1.1, h1.2]
        | fail m e2 => rw [ht, hf] at h1; simp [MStep.strip] at h1
        | crash e2 => rw [ht, hf] at h1; simp [MStep.strip] at h1
      | fail m e1 =>
        cases hf : runRanges t tt nt false q.ranges with
        | cont e2 => rw [ht, hf] at h1; simp [MStep.strip] at h1
        | exit cd2 ch2 e2 => rw [ht, hf] at h1; simp [MStep.strip] at h1
        | fail m2 e2 =>
          rw [ht, hf] at h1
          simp only [MStep.strip, MStepS.fail.injEq] at h1
          simp [runModule, hqw, ht, hf, MOut.strip, h1]
        | crash e2 => rw [ht, hf] at h1; simp [MStep.strip] at h1
      | crash e1 =>
        cases hf : runRanges t tt nt false q.ranges with
        | cont e2 => rw [ht, hf] at h1; simp [MStep.strip] at h1
        | exit cd2 ch2 e2 => rw [ht, hf] at h1; simp [MStep.strip] at h1
        | fail m2 e2 => rw [ht, hf] at h1; simp [MStep.strip] at h1
        | crash e2 => simp [runModule, hqw, ht, hf, MOut.strip]

theorem get_mem_kids (t : Int) (tt nt : String) (cm : Bool) (c : RTree)
    (rest : List RTree) :
    Ev.get c.ref ∈ (recurseMKids t tt nt cm (c :: rest)).evs := by
  by_cases hgw : c.getW ≠ ""
  · simp [recurseMKids, hgw, MStep.evs]
  · simp only [not_not] at hgw
    cases hrec : recurseM t tt nt cm c with
    | cont e =>
      rw [kidsStep_cont t tt nt cm c rest e hgw hrec, mstep_evs_addEvs]
      exact List.mem_append_left _ (List.mem_cons_self _ _)
    | exit cd ch e => simp [recurseMKids, hgw, hrec, MStep.evs]
    | fail m e => simp [recurseMKids, hgw, hrec, MStep.evs]
    | crash e => simp [recurseMKids, hgw, hrec, MStep.evs]

theorem pyIn_nil_needle (h : List Char) : pyIn [] h = true := by
  cases h <;> simp [pyIn, pyStartsWith]

theorem pyIn_nil_hay (n : List Char) (hn : n ≠ []) : pyIn n [] = false := by
  cases n with
  | nil => exact absurd rfl hn
  | cons a as => simp [pyIn, pyStartsWith]

theorem toList_ne_nil {s : String} (h : s ≠ "") : s.toList ≠ [] := by
  intro hl
  apply h
  cases s with
  | mk data =>
    simp only [String.toList] at hl
    rw [hl]

@[simp] theorem lstep_evs_addEvs (a : List Ev) (s : LStep) :
    (LStep.addEvs a s).evs = a ++ s.evs := by
  cases s <;> simp [LStep.addEvs, LStep.evs]

theorem recurseLKids_evs_ne (t : Int) (tt : String) (c : RTree)
    (rest : List RTree) :
    (recurseLKids t tt (c :: rest)).evs ≠ [] := by
  cases hrec : recurseL t tt c with
  | crash e => simp [recurseLKids, hrec, LStep.evs]
  | res xs e =>
    cases xs with
    | nil =>
      have hred : recurseLKids t tt (c :: rest) =
          LStep.addEvs (Ev.get c.ref :: e) (recurseLKids t tt rest) := by
        simp [recurseLKids, hrec]
      rw [hred, lstep_evs_addEvs]
      simp
    | cons x xrest => simp [recurseLKids, hrec, LStep.evs]

/-- Claim C1, counterexample: with target prefix length 30, a visited
`/29` node whose prefix length is strictly below the target and whose
childRanges list is non-empty, with no match at the node, is NOT descended
into — neither variant issues any child GET (the event lists hold the
node's visit only), because the code compares the prefix length against
the hardcoded constant 28, not against targetPrefixLength. -/
theorem c1_counterexample :
    (29 : Int) < 30 ∧ c1node.children = [c1kid] ∧
    matchCond 30 "free" 29 c1node.title = false ∧
    recurseM 30 "free" "" false c1node = .cont [Ev.visit "10.0.0.0/29" none] ∧
    recurseL 30 "free" c1node = .res [] [Ev.visit "10.0.0.0/29" none] :=
  ⟨by decide, rfl, rfl, rfl, rfl⟩

/-- Claim C1 (amended): for every visited range node with no match, the
resolver descends into the node's child ranges (i.e. issues at least one
child GET) if and only if the node's parsed prefix length is strictly less
than the hardcoded constant 28 — independent of targetPrefixLength — and
the node's childRanges list is non-empty. -/
theorem c1_descend_iff (t : Int) (tt nt : String) (cm : Bool)
    (name ref : String) (title : Option String) (gw pw : String)
    (cs : List RTree) (p : Int)
    (hp : cidrPlen name = some p)
    (hnm : matchCond t tt p title = false) :
    (∃ u, Ev.get u ∈ (recurseM t tt nt cm (RTree.mk name ref title gw pw cs)).evs)
      ↔ (p < 28 ∧ cs ≠ []) := by
  constructor
  · rintro ⟨u, hu⟩
    by_cases hd : p < 28 ∧ ¬cs = []
    · exact hd
    · have hred : recurseM t tt nt cm (RTree.mk name ref title gw pw cs) =
          .cont [Ev.visit name title] := by
        simp [recurseM, hp, hnm, hd]
      rw [hred] at hu
      simp [MStep.evs] at hu
  · rintro ⟨h1, h2⟩
    obtain ⟨c, rest, rfl⟩ : ∃ c rest, cs = c :: rest := by
      cases cs with
      | nil => exact absurd rfl h2
      | cons c rest => exact ⟨c, rest, rfl⟩
    refine ⟨c.ref, ?_⟩
    have hred : recurseM t tt nt cm (RTree.mk name ref title gw pw (c :: rest)) =
        MStep.addEvs [Ev.visit name title] (recurseMKids t tt nt cm (c :: rest)) := by
      simp [recurseM, hp, hnm, h1]
    rw [hred, mstep_evs_addEvs]
    exact List.mem_append_right _ (get_mem_kids t tt nt cm c rest)

/-- Witness for `c1_descend_iff` at a concrete `/27` node with one child,
target 28. -/
theorem c1_descend_iff_witness :
    (∃ u, Ev.get u ∈ (recurseM 28 "nomatch" "" false
        (RTree.mk "10.0.1.0/27" "rp1" none "" "" [c1wkid])).evs)
      ↔ ((27 : Int) < 28 ∧ [c1wkid] ≠ []) :=
  c1_descend_iff 28 "nomatch" "" false "10.0.1.0/27" "rp1" none "" "" [c1wkid] 27
    rfl rfl

/-- Claim C2, counterexample: the claim's symmetric condition — the
LOWERCASED titleSubstring being a substring of the lowercased Title —
holds for titleSubstring `"FREE"` against title `"free pool"`, yet the
code reports no match in either variant (the module run ends not-found):
the code lowercases only the title, never the titleSubstring. -/
theorem c2_counterexample :
    pyIn (lowerChars "FREE".toList) (lowerChars ((some "free pool").getD "").toList)
        = true ∧
    recurseL 28 "FREE" c2node = .res [] [Ev.visit "10.0.0.0/28" (some "free pool")] ∧
    runModule 28 "FREE" "" false [⟨"net2", "", [c2node]⟩] =
      .notFound (notFoundMsg 28)
        [Ev.get "Ranges", Ev.visit "10.0.0.0/28" (some "free pool")] :=
  ⟨rfl, rfl, rfl⟩

/-- Claim C2 (amended): a visited node is reported as the match at that
node if and only if its parsed prefix length equals targetPrefixLength and
the titleSubstring — used verbatim, NOT lowercased — is a substring of the
lowercased `customProperties.Title`; so matching is case-insensitive in
the title operand only: `"FREE-001"` matches `titleSubstring="free"`, but
an uppercase titleSubstring does not match a lowercase title. -/
theorem c2_match_iff (t : Int) (tt name ref gw pw : String)
    (title : Option String) (cs : List RTree) (p : Int)
    (hp : cidrPlen name = some p) :
    recurseL t tt (RTree.mk name ref title gw pw cs) =
        .res [name] [Ev.visit name title]
      ↔ (p = t ∧ pyIn tt.toList (lowerChars (title.getD "").toList) = true) := by
  constructor
  · intro h
    by_cases hm : matchCond t tt p title = true
    · have := hm
      simp only [matchCond, Bool.and_eq_true, beq_iff_eq] at this
      exact this
    · exfalso
      by_cases hd : p < 28 ∧ ¬cs = []
      · obtain ⟨c, rest, rfl⟩ : ∃ c rest, cs = c :: rest := by
          cases cs with
          | nil => exact absurd rfl hd.2
          | cons c rest => exact ⟨c, rest, rfl⟩
        have hred : recurseL t tt (RTree.mk name ref title gw pw (c :: rest)) =
            LStep.addEvs [Ev.visit name title] (recurseLKids t tt (c :: rest)) := by
          simp [recurseL, hp, hm, hd]
        rw [hred] at h
        have hne := recurseLKids_evs_ne t tt c rest
        cases hK : recurseLKids t tt (c :: rest) with
        | crash e => rw [hK] at h; simp [LStep.addEvs] at h
        | res xs e =>
          rw [hK] at h
          simp only [LStep.addEvs, LStep.res.injEq] at h
          rw [hK] at hne
          simp only [LStep.evs] at hne
          have : e = [] := by
            have h2 := h.2
            simpa using h2
          exact hne this
      · have hred : recurseL t tt (RTree.mk name ref title gw pw cs) =
            .res [] [Ev.visit name title] := by
          simp [recurseL, hp, hm, hd]
        rw [hred] at h
        simp at h
  · rintro ⟨h1, h2⟩
    have hm : matchCond t tt p title = true := by
      simp only [matchCond, Bool.and_eq_true, beq_iff_eq]
      exact ⟨h1, h2⟩
    simp [recurseL, hp, hm]

/-- Witness for `c2_match_iff`: a `/28` range titled `"FREE-001"` against
`titleSubstring="free"`. -/
theorem c2_match_iff_witness :
    recurseL 28 "free" (RTree.mk "192.168.0.16/28" "rw2" (some "FREE-001") "" "" []) =
        .res ["192.168.0.16/28"] [Ev.visit "192.168.0.16/28" (some "FREE-001")]
      ↔ ((28 : Int) = 28 ∧
          pyIn "free".toList (lowerChars ((some "FREE-001").getD "").toList) = true) :=
  c2_match_iff 28 "free" "192.168.0.16/28" "rw2" "" "" (some "FREE-001") [] 28 rfl

/-- Claim C3, counterexample: in the lookup variant a child GET whose
response carries non-empty warnings does NOT abort the operation — the
child is still visited and returned as the match (the lookup calls plain
`doapi` and never reads the `warnings` field). -/
theorem c3_counterexample :
    c3kid.getW = "WARNING: boom" ∧
    lookupRun (some 28) (some "free") [⟨"net3", "", [c3root]⟩] =
      .res ["10.0.0.16/28"]
        [Ev.get "Ranges", Ev.visit "10.0.0.0/24" none, Ev.get "rk3",
         Ev.visit "10.0.0.16/28" (some "free")] :=
  ⟨rfl, rfl⟩

/-- Claim C3 (amended): in the module variant every API call is checked by
`doapi_with_errcheck`, so a non-empty warnings field on the filtered
Ranges query, on a child-range GET, or on the title PUT aborts the whole
operation immediately with the server-provided message, visiting no
further node; the lookup variant performs no warnings check at all. -/
theorem c3_warnings_abort (t : Int) (tt nt : String) (cm : Bool) :
    (∀ (q : NetQuery) rest, q.warnings ≠ "" →
      runModule t tt nt cm (q :: rest) = .apiError q.warnings [Ev.get "Ranges"]) ∧
    (∀ (c : RTree) rest, c.getW ≠ "" →
      recurseMKids t tt nt cm (c :: rest) = .fail c.getW [Ev.get c.ref]) ∧
    (∀ name ref gw pw cs p (title : Option String), cidrPlen name = some p →
      matchCond t tt p title = true → nt ≠ "" → pw ≠ "" →
      recurseM t tt nt false (RTree.mk name ref title gw pw cs) =
        .fail pw [Ev.visit name title, Ev.put ref ref nt "Ansible API"]) := by
  refine ⟨?_, ?_, ?_⟩
  · intro q rest hqw
    simp [runModule, hqw]
  · intro c rest hgw
    simp [recurseMKids, hgw]
  · intro name ref gw pw cs p title hp hm hnt hpw
    simp [recurseM, hp, hm, hnt, hpw]

/-- Witness for `c3_warnings_abort`: the PUT response of a matched `/28`
range carries warnings, so the module fails with them right after issuing
the PUT. -/
theorem c3_warnings_abort_witness :
    recurseM 28 "free" "rsv" false
        (RTree.mk "10.0.4.0/28" "rw3" (some "free") "" "PUT-ERR" []) =
      .fail "PUT-ERR"
        [Ev.visit "10.0.4.0/28" (some "free"), Ev.put "rw3" "rw3" "rsv" "Ansible API"] :=
  (c3_warnings_abort 28 "free" "rsv" false).2.2 "10.0.4.0/28" "rw3" "" "PUT-ERR" []
    28 (some "free") rfl rfl (by decide) (by decide)

/-- Claim C4, counterexample: over the same tree, when the PUT response
carries warnings the check-mode (dry-run) invocation reports the match
(changed, with the CIDR) while the non-dry-run invocation aborts with the
API error instead of reporting a match — so dry-run does not report a
match "exactly when" the non-dry-run would. -/
theorem c4_counterexample :
    runModule 28 "free" "reserved" true [⟨"net4", "", [c4tree]⟩] =
      .found "10.0.0.0/28" true
        [Ev.get "Ranges", Ev.visit "10.0.0.0/28" (some "free")] ∧
    runModule 28 "free" "reserved" false [⟨"net4", "", [c4tree]⟩] =
      .apiError "PUTFAIL"
        [Ev.get "Ranges", Ev.visit "10.0.0.0/28" (some "free"),
         Ev.put "rc4" "rc4" "reserved" "Ansible API"] :=
  ⟨rfl, rfl⟩

/-- Claim C4 (amended): a dry-run (check-mode) invocation issues zero PUT
calls for every input and environment; and whenever the environment's PUT
responses are warning-free, the dry-run invocation's outcome (returned
CIDR, changed flag, error or not-found result) is identical to the
non-dry-run invocation's. -/
theorem c4_dryrun_equiv (t : Int) (tt nt : String) :
    (∀ env, evsNoPut (runModule t tt nt true env).evs = true) ∧
    (∀ env, envNoPutW env = true →
      (runModule t tt nt true env).strip = (runModule t tt nt false env).strip) :=
  ⟨fun env => runModule_noPut_cm t tt nt env,
   fun env h => runModule_strip t tt nt env h⟩

/-- Witness for `c4_dryrun_equiv` on a one-node environment. -/
theorem c4_dryrun_equiv_witness :
    evsNoPut (runModule 28 "free" "rsv" true [⟨"net4w", "", [c4wtree]⟩]).evs = true ∧
    (runModule 28 "free" "rsv" true [⟨"net4w", "", [c4wtree]⟩]).strip =
      (runModule 28 "free" "rsv" false [⟨"net4w", "", [c4wtree]⟩]).strip :=
  ⟨(c4_dryrun_equiv 28 "free" "rsv").1 [⟨"net4w", "", [c4wtree]⟩],
   (c4_dryrun_equiv 28 "free" "rsv").2 [⟨"net4w", "", [c4wtree]⟩] rfl⟩

/-- Claim C5, counterexample: the environment's only qualifying range is
the `/28` child (target 28, title containing "free"), yet the module, with
newTitle set and dry-run off, ends not-found and issues zero PUTs: the
child is unreachable because its `/28` parent is not descended into
(28 < 28 fails). -/
theorem c5_counterexample :
    qualNode 28 "free" c5kid = true ∧
    qualNode 28 "free" c5root = false ∧
    runModule 28 "free" "reserved" false [⟨"net5", "", [c5root]⟩] =
      .notFound (notFoundMsg 28)
        [Ev.get "Ranges", Ev.visit "10.0.0.0/28" (some "used")] :=
  ⟨rfl, rfl, rfl⟩

/-- Claim C5 (amended): on a well-formed environment (names parseable, GET
responses warning-free) whose traversal reaches exactly one qualifying
range, with newTitle set, dry-run off and that range's PUT response
warning-free, the module returns that range's CIDR with changed set and
issues exactly one PUT, addressed to that range's ref, with body Title
equal to newTitle and saveComment "Ansible API"; with newTitle unset, or
when the traversal reaches no qualifying range, zero PUTs are issued. -/
theorem c5_unique_match (t : Int) (tt nt : String) (env : List NetQuery)
    (m : RTree)
    (hp : envAllParse env = true) (hw : envNoGetW env = true)
    (hq : reachQualsEnv t tt env = [m]) (hpw : m.putW = "") (hnt : nt ≠ "") :
    (∃ pre, evsNoPut pre = true ∧
      runModule t tt nt false env =
        .found m.name true
          (pre ++ [Ev.visit m.name m.title, Ev.put m.ref m.ref nt "Ansible API"]) ∧
      evsPuts (runModule t tt nt false env).evs =
        [Ev.put m.ref m.ref nt "Ansible API"]) ∧
    (∀ env2 cm2, evsNoPut (runModule t tt "" cm2 env2).evs = true) ∧
    (∀ env3 cm3, envAllParse env3 = true → envNoGetW env3 = true →
      reachQualsEnv t tt env3 = [] →
      evsNoPut (runModule t tt nt cm3 env3).evs = true) := by
  refine ⟨?_, fun env2 cm2 => runModule_noPut_nt t tt cm2 env2, ?_⟩
  · obtain ⟨pre, hnp, hout⟩ := (runModule_char t tt nt false env hp hw).2 m [] hq
    have hq0 : qualNode t tt m = true :=
      reachQualsEnv_qual t tt env m (by rw [hq]; exact List.mem_cons_self _ _)
    rcases recurseM_qual_or t tt nt false m hq0 with hsh | ⟨_, _, hpw2, _⟩
    · have hdec : decide (nt ≠ "") = true := by simp [hnt]
      have hpt : putTail nt false m = [Ev.put m.ref m.ref nt "Ansible API"] := by
        simp [putTail, hnt]
      rw [hsh, hdec, hpt] at hout
      have hfound : runModule t tt nt false env =
          .found m.name true
            (pre ++ [Ev.visit m.name m.title, Ev.put m.ref m.ref nt "Ansible API"]) := by
        rw [hout]
        rfl
      refine ⟨pre, hnp, hfound, ?_⟩
      rw [hfound]
      simp only [MOut.evs, evsPuts_append, evsPuts_eq_nil_of_noPut hnp]
      rfl
    · exact absurd hpw hpw2
  · intro env3 cm3 hp3 hw3 hq3
    obtain ⟨e, hout, hnp⟩ := (runModule_char t tt nt cm3 env3 hp3 hw3).1 hq3
    rw [hout]
    exact hnp

/-- Witness for `c5_unique_match`: a `/27` parent with one qualifying
`/28` child, newTitle `"reserved"`. -/
theorem c5_unique_match_witness :
    (∃ pre, evsNoPut pre = true ∧
      runModule 28 "free" "reserved" false [⟨"net5w", "", [c5wroot]⟩] =
        .found c5wkid.name true
          (pre ++ [Ev.visit c5wkid.name c5wkid.title,
            Ev.put c5wkid.ref c5wkid.ref "reserved" "Ansible API"]) ∧
      evsPuts (runModule 28 "free" "reserved" false [⟨"net5w", "", [c5wroot]⟩]).evs =
        [Ev.put c5wkid.ref c5wkid.ref "reserved" "Ansible API"]) ∧
    (∀ env2 cm2, evsNoPut (runModule 28 "free" "" cm2 env2).evs = true) ∧
    (∀ env3 cm3, envAllParse env3 = true → envNoGetW env3 = true →
      reachQualsEnv 28 "free" env3 = [] →
      evsNoPut (runModule 28 "free" "reserved" cm3 env3).evs = true) :=
  c5_unique_match 28 "free" "reserved" [⟨"net5w", "", [c5wroot]⟩] c5wkid
    rfl rfl rfl rfl (by decide)

/-- Claim C6: on a well-formed environment (names parseable, responses
warning-free) in which no range at any depth satisfies the match
condition, the module terminates with the user-facing not-found failure
message and a PUT-free event trace, and the lookup variant returns the
empty list without raising an exception. -/
theorem c6_not_found (t : Int) (tt nt : String) (cm : Bool) (env : List NetQuery)
    (hp : envAllParse env = true) (hw : envNoGetW env = true)
    (hq : envNoQual t tt env = true) :
    (∃ e, runModule t tt nt cm env = .notFound (notFoundMsg t) e ∧
      evsNoPut e = true) ∧
    (∃ e2, runL t tt env = .res [] e2) := by
  have hnil := reachQualsEnv_nil_of_noQual t tt env hq
  exact ⟨(runModule_char t tt nt cm env hp hw).1 hnil,
    (runL_char t tt env hp).1 hnil⟩

/-- Witness for `c6_not_found` on a one-node environment whose only range
has a non-matching prefix length. -/
theorem c6_not_found_witness :
    (∃ e, runModule 28 "free" "rsv" false [⟨"net6", "", [c6wnode]⟩] =
        .notFound (notFoundMsg 28) e ∧ evsNoPut e = true) ∧
    (∃ e2, runL 28 "free" [⟨"net6", "", [c6wnode]⟩] = .res [] e2) :=
  c6_not_found 28 "free" "rsv" false [⟨"net6", "", [c6wnode]⟩] rfl rfl rfl

/-- Claim C7: on a well-formed environment whose traversal reaches two or
more qualifying ranges, only the first one in traversal order (networks in
input order, top-level ranges and child lists in list order, restricted to
the subtrees the bounded descent enters) is returned and, when a new title
is requested outside check mode, mutated; the search short-circuits at
that node: after its visit event the trace contains at most the single PUT
event, so no later sibling or subtree is visited or fetched. -/
theorem c7_first_match (t : Int) (tt nt : String) (cm : Bool)
    (env : List NetQuery) (m : RTree) (ms : List RTree)
    (hp : envAllParse env = true) (hw : envNoGetW env = true)
    (hq : reachQualsEnv t tt env = m :: ms) (_hms : ms ≠ [])
    (hpw : m.putW = "") :
    ∃ pre, evsNoPut pre = true ∧
      runModule t tt nt cm env =
        .found m.name (decide (nt ≠ ""))
          (pre ++ Ev.visit m.name m.title :: putTail nt cm m) := by
  obtain ⟨pre, hnp, hout⟩ := (runModule_char t tt nt cm env hp hw).2 m ms hq
  have hq0 : qualNode t tt m = true :=
    reachQualsEnv_qual t tt env m (by rw [hq]; exact List.mem_cons_self _ _)
  rcases recurseM_qual_or t tt nt cm m hq0 with hsh | ⟨_, _, hpw2, _⟩
  · refine ⟨pre, hnp, ?_⟩
    rw [hout, hsh]
    rfl
  · exact absurd hpw hpw2

/-- Witness for `c7_first_match`: two qualifying sibling `/28` ranges;
the first is returned and mutated. -/
theorem c7_first_match_witness :
    ∃ pre, evsNoPut pre = true ∧
      runModule 28 "free" "rsv" false [⟨"net7", "", [c7wa, c7wb]⟩] =
        .found c7wa.name (decide (("rsv" : String) ≠ ""))
          (pre ++ Ev.visit c7wa.name c7wa.title :: putTail "rsv" false c7wa) :=
  c7_first_match 28 "free" "rsv" false [⟨"net7", "", [c7wa, c7wb]⟩] c7wa [c7wb]
    rfl rfl rfl (List.cons_ne_nil _ _) rfl

/-- Claim C8: with an empty titleSubstring, every range whose parsed
prefix length equals targetPrefixLength matches regardless of its Title
(present, empty, or missing): the lookup returns its CIDR and the module
(shown with newTitle unset) exits with it. -/
theorem c8_empty_needle (t : Int) (cm : Bool) (name ref gw pw : String)
    (title : Option String) (cs : List RTree)
    (hp : cidrPlen name = some t) :
    recurseL t "" (RTree.mk name ref title gw pw cs) =
        .res [name] [Ev.visit name title] ∧
    recurseM t "" "" cm (RTree.mk name ref title gw pw cs) =
        .exit name false [Ev.visit name title] := by
  have hm : matchCond t "" t title = true := by
    have : ("" : String).toList = [] := rfl
    simp [matchCond, this, pyIn_nil_needle]
  exact ⟨by simp [recurseL, hp, hm], by simp [recurseM, hp, hm]⟩

/-- Witness for `c8_empty_needle` on an untitled `/28` range. -/
theorem c8_empty_needle_witness :
    recurseL 28 "" (RTree.mk "10.2.0.0/28" "rw8" none "" "" []) =
        .res ["10.2.0.0/28"] [Ev.visit "10.2.0.0/28" none] ∧
    recurseM 28 "" "" false (RTree.mk "10.2.0.0/28" "rw8" none "" "" []) =
        .exit "10.2.0.0/28" false [Ev.visit "10.2.0.0/28" none] :=
  c8_empty_needle 28 false "10.2.0.0/28" "rw8" "" "" none [] rfl

/-- Claim C9: a node whose `customProperties` or Title is absent is
evaluated without error — the title defaults to the empty string — and a
non-empty titleSubstring never matches such an untitled range even when
its prefix length equals the target: the lookup returns no result and the
module continues normally (neither crashes). -/
theorem c9_untitled (t : Int) (tt nt : String) (cm : Bool)
    (name ref gw pw : String)
    (htt : tt ≠ "") (hp : cidrPlen name = some t) :
    recurseL t tt (RTree.mk name ref none gw pw []) =
        .res [] [Ev.visit name none] ∧
    recurseM t tt nt cm (RTree.mk name ref none gw pw []) =
        .cont [Ev.visit name none] := by
  have hm : matchCond t tt t none = false := by
    have hfalse : pyIn tt.toList (lowerChars (((none : Option String)).getD "").toList)
        = false := by
      have : lowerChars (((none : Option String)).getD "").toList = [] := rfl
      rw [this]
      exact pyIn_nil_hay _ (toList_ne_nil htt)
    simp only [matchCond, hfalse, Bool.and_false]
  exact ⟨by simp [recurseL, hp, hm], by simp [recurseM, hp, hm]⟩

/-- Witness for `c9_untitled` on an untitled `/28` range with
titleSubstring `"free"`. -/
theorem c9_untitled_witness :
    recurseL 28 "free" (RTree.mk "10.3.0.0/28" "rw9" none "" "" []) =
        .res [] [Ev.visit "10.3.0.0/28" none] ∧
    recurseM 28 "free" "rsv" true (RTree.mk "10.3.0.0/28" "rw9" none "" "" []) =
        .cont [Ev.visit "10.3.0.0/28" none] :=
  c9_untitled 28 "free" "rsv" true "10.3.0.0/28" "rw9" "" "" (by decide) rfl

/-- Claim C10: in the lookup variant, omitting the prefixlength keyword
defaults the target prefix length to 28, and omitting the title keyword
defaults the title substring to "free"; the search then proceeds exactly
as with those values supplied explicitly. -/
theorem c10_lookup_defaults :
    (∀ env, lookupRun none none env = lookupRun (some 28) (some "free") env) ∧
    (∀ env p, lookupRun (some p) none env = lookupRun (some p) (some "free") env) ∧
    (∀ env s, lookupRun none (some s) env = lookupRun (some 28) (some s) env) :=
  ⟨fun _ => rfl, fun _ _ => rfl, fun _ _ => rfl⟩
example : pyIn "FREE".toList (lowerChars "free".toList) = false := rfl
example : cidrPlen "192.168.0.0/28" = some 28 := rfl
example : cidrPlen "192.168.0.0" = none := rfl
example : cidrPlen "a/b/c" = none := rfl
example :
    recurseL 28 "free" (.mk "10.0.0.0/28" "r1" (some "FREE-001") "" "" []) =
      .res ["10.0.0.0/28"] [Ev.visit "10.0.0.0/28" (some "FREE-001")] := rfl
example :
    recurseM 28 "free" "rsv" false (.mk "10.0.0.0/28" "r1" (some "FREE-001") "" "" []) =
      .exit "10.0.0.0/28" true
        [Ev.visit "10.0.0.0/28" (some "FREE-001"), Ev.put "r1" "r1" "rsv" "Ansible API"] := rfl
example :
    runModule 28 "free" "" false [] =
      .notFound "No acceptable /28 range found in the provided network(s)." [] := rfl
